import Mathlib

/-!
Verification development for the geodetective evidence-aggregation and
location-inference pipeline (source: `src/unnamed/part_003`).

The TypeScript source is shallowly embedded: JavaScript numbers are modelled
as exact integers/rationals (`Int`/`ℚ`), `Math.round` as `jsRound`
(floor of `x + 1/2`, which is JavaScript round-half-up semantics), strings as
Lean `String`/`List Char` (case mapping restricted to ASCII, matching
`Char.toLower`), fallible code as `Except String` carrying the thrown
`Error.message`, and the external reasoning service as an oracle giving the
outcome of each outbound call in sequence.
-/

namespace Geo

/-- JavaScript `Math.round`: round half toward positive infinity. -/
def jsRound (q : ℚ) : Int := ⌊q + 1/2⌋

/-- JavaScript `String.prototype.includes`: substring containment. -/
def hasSub (needle : List Char) : List Char → Bool
  | [] => needle.isEmpty
  | c :: t => needle.isPrefixOf (c :: t) || hasSub needle t

/-- `err.message?.includes(sub)` from the source's error classification. -/
def jsIncludes (s sub : String) : Bool := hasSub sub.toList s.toList

/-- The JavaScript `\s`/`trim` whitespace set (the Unicode space characters). -/
def isJsWS (c : Char) : Bool :=
  c ∈ ([' ', '\t', '\n', '\r', '\u000B', '\u000C', ' ', ' ',
        ' ', ' ', ' ', ' ', ' ', ' ', ' ',
        ' ', ' ', ' ', ' ', ' ', ' ', ' ',
        ' ', '　', '﻿'] : List Char)

/-- JavaScript line terminators (which `.` in a regex never matches). -/
def isLineTerm (c : Char) : Bool :=
  c ∈ (['\n', '\r', ' ', ' '] : List Char)

/-- JavaScript `String.prototype.trim` on a character list. -/
def trimBoth (l : List Char) : List Char :=
  ((l.dropWhile isJsWS).reverse.dropWhile isJsWS).reverse

/-! ### `normalizeRegion` (source lines 1273-1290)

`region.toLowerCase().replace(/\s*\([^)]*\)/g, '').replace(/,.*$/, '')
  .replace(/southern |northern |... /g, '').trim() || 'unknown'`

Each regex pass is transcribed as a left-to-right scanner; fuel equal to the
input length makes the scanners structurally recursive (every step consumes
at least one character, so the fuel never runs out). -/

/-- Match of `\s*\([^)]*\)` anchored at the head: greedy whitespace, an
opening parenthesis, the run up to the first `)`, and that `)`.
Returns the remainder of the string after the match. -/
def parenMatchAt (s : List Char) : Option (List Char) :=
  match s.drop (s.takeWhile isJsWS).length with
  | '(' :: r2 =>
    (match r2.drop (r2.takeWhile fun c => c ≠ ')').length with
     | ')' :: tail => some tail
     | _ => none)
  | _ => none

/-- Global replacement of `\s*\([^)]*\)` by the empty string (fueled scan). -/
def removeParensGo : Nat → List Char → List Char
  | 0, l => l
  | _ + 1, [] => []
  | f + 1, c :: cs =>
    match parenMatchAt (c :: cs) with
    | some rest => removeParensGo f rest
    | none => c :: removeParensGo f cs

/-- `.replace(/\s*\([^)]*\)/g, '')`. -/
def removeParens (l : List Char) : List Char := removeParensGo l.length l

/-- `.replace(/,.*$/, '')`: drop everything from the first comma that is
followed by no line terminator (without the `s`/`m` flags, `.` skips line
terminators and `$` only matches at the very end of the input). -/
def removeCommaTail : List Char → List Char
  | [] => []
  | c :: cs =>
    if c = ',' && cs.all (fun d => !isLineTerm d) then []
    else c :: removeCommaTail cs

/-- The directional alternatives of the final `.replace(..., '')`. -/
def dirWords : List (List Char) :=
  ["southern ", "northern ", "eastern ", "western ", "coastal ", "central "].map
    String.toList

/-- Match of `southern |northern |eastern |western |coastal |central `
anchored at the head; returns the remainder after the matched word. -/
def dirMatchAt (s : List Char) : Option (List Char) :=
  dirWords.findSome? fun w =>
    if w.isPrefixOf s then some (s.drop w.length) else none

/-- Global replacement of the directional words by the empty string. -/
def removeDirGo : Nat → List Char → List Char
  | 0, l => l
  | _ + 1, [] => []
  | f + 1, c :: cs =>
    match dirMatchAt (c :: cs) with
    | some rest => removeDirGo f rest
    | none => c :: removeDirGo f cs

/-- `.replace(/southern |northern |eastern |western |coastal |central /g, '')`. -/
def removeDir (l : List Char) : List Char := removeDirGo l.length l

/-- `normalizeRegion` (string branch; the source's non-string guards are
outside this embedding's domain). An empty (falsy) input short-circuits to
`'unknown'`, exactly like the final `|| 'unknown'`. -/
def normalizeRegion (region : String) : String :=
  if region = "" then "unknown"
  else
    let t := trimBoth (removeDir (removeCommaTail (removeParens
      (region.toList.map Char.toLower))))
    if t.isEmpty then "unknown" else String.mk t

/-- JavaScript `String.prototype.toLowerCase` (ASCII fragment). -/
def lowerStr (s : String) : String := String.mk (s.toList.map Char.toLower)

/-- JavaScript `String.prototype.trim`. -/
def jsTrim (s : String) : String := String.mk (trimBoth s.toList)

/-! ### Data model (source lines 17-109) -/

/-- `LocationCandidate` (source lines 34-40). -/
structure LocationCandidate where
  locationName : String
  coordinates : Option (ℚ × ℚ)
  probability : Int
  reasoning : List String
  keyEvidence : List String
deriving DecidableEq, Repr

/-- One entry of `ExpertConsensus.topRegions` (source line 107). -/
structure TopRegion where
  region : String
  score : Int
  evidence : List String
deriving DecidableEq, Repr

/-- `EvidenceItem` (source lines 27-31). `strength` is carried as the raw
string: the source never validates it against the three-value enum. -/
structure EvidenceItem where
  clue : String
  strength : String
  supports : String
deriving DecidableEq, Repr

/-- The `visualCues` record (source lines 59-64, `demographics` defaulted). -/
structure VisualCues where
  signs : String
  architecture : String
  environment : String
  demographics : String
deriving DecidableEq, Repr

/-- A grounding source citation `{title, uri}` (source line 66). -/
structure SourceLink where
  title : String
  uri : String
deriving DecidableEq, Repr

/-- The split confidence object (source lines 46-49). Fields are optional
because `normalizeResult` passes a present `data.confidence` through
verbatim, so either field may be absent at runtime. The source field
`local` is called `localLevel` here (`local` is reserved in Lean). -/
structure ConfSplit where
  region : Option Int
  localLevel : Option Int
deriving DecidableEq, Repr

/-- `GeoAnalysisResult` (source lines 42-67). -/
structure GeoAnalysisResult where
  locationName : String
  coordinates : Option (ℚ × ℚ)
  confidenceScore : Int
  confidence : ConfSplit
  isDefinitive : Bool
  candidates : Option (List LocationCandidate)
  reasoning : List String
  evidence : List EvidenceItem
  alternativeLocations : List String
  uncertainties : List String
  visualCues : VisualCues
  searchQueriesUsed : List String
  sources : List SourceLink
deriving DecidableEq, Repr

/-! ### Consensus/Candidate Builder (source lines 572-639) -/

/-- `DEFINITIVE_THRESHOLD` (source line 573). -/
def DEFINITIVE_THRESHOLD : Int := 75

/-- `MIN_CANDIDATE_THRESHOLD` (source line 574). -/
def MIN_CANDIDATE_THRESHOLD : Int := 15

/-- `GAP_THRESHOLD` (source line 575). -/
def GAP_THRESHOLD : Int := 40

/-- `Math.round((Math.max(0, score) / totalScore) * 100)` (source line 596),
in exact rational arithmetic. -/
def probability (score totalScore : Int) : Int :=
  jsRound ((max 0 score : Int) / (totalScore : ℚ) * 100)

/-- `region.charAt(0).toUpperCase() + region.slice(1)` (source line 598). -/
def capitalize (s : String) : String :=
  match s.toList with
  | [] => ""
  | c :: rest => String.mk (Char.toUpper c :: rest)

/-- `e.split(':')[1]?.trim() || e` (source line 602). -/
def keyEvidenceOf (e : String) : String :=
  match (e.splitOn ":").get? 1 with
  | some seg => let t := jsTrim seg; if t = "" then e else t
  | none => e

/-- One element of `candidatesWithProb` (source lines 595-604). -/
def mkCandidate (totalScore : Int) (r : TopRegion) : LocationCandidate :=
  { locationName := capitalize r.region
    coordinates := none
    probability := probability r.score totalScore
    reasoning := r.evidence.take 3
    keyEvidence := (r.evidence.take 2).map keyEvidenceOf }

/-- `candidatesWithProb` after the in-place descending sort by probability
(source lines 595-607); JavaScript sort is stable, as is `mergeSort`. -/
def rankedCandidates (pool : List TopRegion) (totalScore : Int) : List LocationCandidate :=
  (pool.map (mkCandidate totalScore)).mergeSort fun a b => decide (b.probability ≤ a.probability)

/-- `totalScore` of the sliced pool (source line 589). -/
def totalScoreOf (topRegions : List TopRegion) : Int :=
  ((topRegions.take 5).map fun r => max 0 r.score).sum

/-- `buildCandidatesFromConsensus` (source lines 578-639). Only the
`topRegions` component of the consensus is read, so it is the argument. -/
def buildCandidatesFromConsensus (topRegions : List TopRegion) :
    Bool × List LocationCandidate :=
  let pool := topRegions.take 5
  if pool.isEmpty then (false, [])
  else
    let totalScore := totalScoreOf topRegions
    if totalScore = 0 then (false, [])
    else
      match rankedCandidates pool totalScore with
      | [] => (false, [])
      | top :: rest =>
        let isDef : Bool := decide (DEFINITIVE_THRESHOLD ≤ top.probability) ||
          (match rest with
           | second :: _ => decide (GAP_THRESHOLD ≤ top.probability - second.probability)
           | [] => false)
        if isDef then (true, (top :: rest).take 1)
        else
          (false, ((top :: rest).filter fun c =>
            decide (MIN_CANDIDATE_THRESHOLD ≤ c.probability)).take 3)

/-! ### Result Decoder: `parseResponse` (source lines 513-531) and
`normalizeResult` (source lines 533-570) -/

/-- The message of the error thrown on a missing/empty response
(source line 515). -/
def noResponseMsg : String :=
  "The AI provided no response. This often happens if the image triggers safety filters (e.g., identifiable people, license plates, or potential privacy concerns). Try cropping the image or using a different angle."

/-- The message of the error thrown by the catch-all of `parseResponse`
(source line 529): both a missing brace and a JSON parse failure end here. -/
def malformedMsg : String :=
  "Invalid JSON response format from AI. The model might have failed to produce structured data."

/-- JavaScript `String.prototype.substring` (argument swap and clamping). -/
def jsSubstring (s : String) (a b : Nat) : String :=
  String.mk ((s.toList.take (max a b)).drop (min a b))

/-- `text.indexOf(c)` as an optional index. -/
def firstIdxOf (c : Char) (s : String) : Option Nat :=
  s.toList.findIdx? fun d => d = c

/-- `text.lastIndexOf(c)` as an optional index. -/
def lastIdxOf (c : Char) (s : String) : Option Nat :=
  match s.toList.reverse.findIdx? (fun d => d = c) with
  | some i => some (s.toList.length - 1 - i)
  | none => none

/-- The brace-delimited substring `text.substring(firstBrace, lastBrace + 1)`
(source lines 518-525), `none` when either brace is missing. -/
def extractJson (t : String) : Option String :=
  match firstIdxOf '{' t, lastIdxOf '}' t with
  | some i, some j => some (jsSubstring t i (j + 1))
  | _, _ => none

/-- `parseResponse` (source lines 513-531) over an abstract JSON parser
standing for `JSON.parse` (a platform builtin, not repository code):
`parse s = some v` models a successful parse, `none` a thrown SyntaxError.
The `throw` for a missing brace happens inside the `try`, so the catch-all
converts it to `malformedMsg` as well. -/
def parseResponse (J : Type) (parse : String → Option J) (text : Option String) :
    Except String J :=
  match text with
  | none => .error noResponseMsg
  | some t =>
    if t = "" then .error noResponseMsg
    else
      match extractJson t with
      | none => .error malformedMsg
      | some sub =>
        match parse sub with
        | some v => .ok v
        | none => .error malformedMsg

/-- JavaScript `a || b` for an optional string: `""` is falsy. -/
def jso (a : Option String) (b : String) : String :=
  match a with
  | some s => if s = "" then b else s
  | none => b

/-- A raw evidence entry as found in the decoded payload (any field may be
missing; `description`/`location` are the alternate key names). -/
structure RawEvidence where
  clue : Option String
  description : Option String
  strength : Option String
  supports : Option String
  location : Option String
deriving DecidableEq, Repr

/-- The decoded raw payload consumed by `normalizeResult`: every field is
optional. -/
structure RawPayload where
  locationName : Option String
  coordinates : Option (ℚ × ℚ)
  confidenceScore : Option Int
  confidence : Option ConfSplit
  reasoning : Option (List String)
  evidence : Option (List RawEvidence)
  alternativeLocations : Option (List String)
  uncertainties : Option (List String)
  visualCues : Option VisualCues
  searchQueriesUsed : Option (List String)
deriving DecidableEq, Repr

/-- `normalizeEvidence` (source lines 534-541). A non-array `evidence` is
`none` and yields `[]`. -/
def normalizeEvidence (evidence : Option (List RawEvidence)) : List EvidenceItem :=
  match evidence with
  | none => []
  | some items => items.map fun item =>
    { clue := jso item.clue (jso item.description "Unknown clue")
      strength := jso item.strength "soft"
      supports := jso item.supports (jso item.location "Unknown") }

/-- `normalizeResult` (source lines 544-570). `??` is `Option.getD`;
`data.confidence || {...}` keeps a present confidence object verbatim. -/
def normalizeResult (data : RawPayload) : GeoAnalysisResult :=
  let score := data.confidenceScore.getD 50
  { locationName := jso data.locationName "Unknown location"
    coordinates := data.coordinates
    confidenceScore := score
    confidence := data.confidence.getD
      { region := some score
        localLevel := some (jsRound ((score : Int) * (7/10 : ℚ))) }
    isDefinitive := decide (80 ≤ score)
    candidates := none
    reasoning := data.reasoning.getD []
    evidence := normalizeEvidence data.evidence
    alternativeLocations := data.alternativeLocations.getD []
    uncertainties := data.uncertainties.getD []
    visualCues := data.visualCues.getD
      { signs := "", architecture := "", environment := "", demographics := "" }
    searchQueriesUsed := data.searchQueriesUsed.getD []
    sources := [] }

/-! ### Clue Expert Runner (source lines 725-789) -/

/-- `SearchableClue` (source lines 203-207). -/
structure SearchableClue where
  clue : String
  type : String
  searchQuery : Option String
deriving DecidableEq, Repr

/-- `ClueExpertOutput` (source lines 209-218) after `runClueExpert` filled
every optional field with its default. -/
structure ClueExpertOutput where
  expertType : String
  searchableClues : List SearchableClue
  languageClues : List String
  transcribedText : List String
  infrastructureClues : List String
  architectureStyle : String
  vegetationClues : List String
  climateIndicators : List String
deriving DecidableEq, Repr

/-- The parsed JSON of one expert response (fields optional, defaults applied
by `runClueExpert`). -/
structure RawExpertParsed where
  searchableClues : Option (List SearchableClue)
  languageClues : Option (List String)
  transcribedText : Option (List String)
  infrastructureClues : Option (List String)
  architectureStyle : Option String
  vegetationClues : Option (List String)
  climateIndicators : Option (List String)
deriving DecidableEq, Repr

/-- `runClueExpert` (source lines 725-770). The argument is the outcome of
the service call plus `parseResponse` (anything thrown inside the `try` is
the `.error` case); the catch logs and returns `null`, i.e. `none`. -/
def runClueExpert (expertName : String) (callOutcome : Except String RawExpertParsed) :
    Option ClueExpertOutput :=
  match callOutcome with
  | .error _ => none
  | .ok parsed => some
    { expertType := expertName
      searchableClues := parsed.searchableClues.getD []
      languageClues := parsed.languageClues.getD []
      transcribedText := parsed.transcribedText.getD []
      infrastructureClues := parsed.infrastructureClues.getD []
      architectureStyle := parsed.architectureStyle.getD ""
      vegetationClues := parsed.vegetationClues.getD []
      climateIndicators := parsed.climateIndicators.getD [] }

/-- `runAllClueExperts` (source lines 773-789): `Promise.all` over the fixed
`CLUE_EXPERTS` panel (text, built_environment, natural_environment), then
`filter(r => r !== null)`, preserving panel order. -/
def runAllClueExperts (o1 o2 o3 : Except String RawExpertParsed) :
    List ClueExpertOutput :=
  ([("text", o1), ("built_environment", o2), ("natural_environment", o3)].map
    fun e => runClueExpert e.1 e.2).filterMap id

/-! ### Clue Aggregator (source lines 792-846) -/

/-- `AggregatedClues` (source lines 220-226). -/
structure AggregatedClues where
  searchableClues : List SearchableClue
  allText : List String
  allInfrastructure : List String
  allNature : List String
  suggestedSearchQueries : List String
deriving DecidableEq, Repr

/-- `[...new Set(arr)]`: drop later duplicates, keep first occurrences. -/
def dedupKeepFirst (seen : List String) : List String → List String
  | [] => []
  | x :: xs =>
    if x ∈ seen then dedupKeepFirst seen xs
    else x :: dedupKeepFirst (x :: seen) xs

/-- `[...new Set(arr)]` (source lines 834, 841-843). -/
def setDedup (l : List String) : List String := dedupKeepFirst [] l

/-- `aggregateClues` (source lines 792-846). `if (clue.searchQuery)` and the
`filter(x => x)` steps drop null and empty strings. -/
def aggregateClues (expertResults : List ClueExpertOutput) : AggregatedClues :=
  let allSearchable := expertResults.flatMap fun e => e.searchableClues
  let queries := expertResults.flatMap fun e =>
    e.searchableClues.filterMap fun c =>
      match c.searchQuery with
      | some q => if q = "" then none else some q
      | none => none
  let allText := expertResults.flatMap fun e => e.transcribedText ++ e.languageClues
  let allInfra := expertResults.flatMap fun e =>
    e.infrastructureClues ++
      (if e.architectureStyle = "" then [] else [e.architectureStyle])
  let allNature := expertResults.flatMap fun e => e.vegetationClues ++ e.climateIndicators
  { searchableClues := allSearchable
    allText := setDedup (allText.filter fun t => decide (t ≠ ""))
    allInfrastructure := setDedup (allInfra.filter fun i => decide (i ≠ ""))
    allNature := setDedup (allNature.filter fun n => decide (n ≠ ""))
    suggestedSearchQueries := setDedup (queries.filter fun q => decide (q ≠ "")) }

/-! ### Retry/Fallback Controller: `runFinalSearch` (source lines 849-1018)

The external service is an oracle `Nat → ServiceResult` giving the outcome of
the n-th outbound call; `CallState` counts calls and logs the capability mode
of each. Decoding a successful response (`parseResponse` + `normalizeResult`
+ `extractSources` + `fillVisualCues`, and for the text-only path the
prepended safety note) is abstracted as `decodeMain`/`decodeText`: a thrown
decode error is the `.error` case carrying the message. -/

/-- The toolsets of the three call shapes of `runFinalSearch`. -/
inductive CallMode where
  | fullTools
  | searchOnly
  | textOnly
deriving DecidableEq, Repr

/-- Outcome of one `generateContent` call: a thrown error, or a response
whose `text` is `""` when absent/empty (both are falsy in the source). -/
inductive ServiceResult where
  | threw (msg : String)
  | returned (text : String)
deriving DecidableEq, Repr

/-- Call counter and log of the modes called, in order. -/
structure CallState where
  count : Nat
  log : List CallMode
deriving DecidableEq, Repr

/-- Perform one outbound call. -/
def svcCall (oracle : Nat → ServiceResult) (mode : CallMode) (st : CallState) :
    ServiceResult × CallState :=
  (oracle st.count, { count := st.count + 1, log := st.log ++ [mode] })

/-- `err.message?.includes('Coordinates are not a valid input')`
(source lines 978, 1161). -/
def isCoordErr (m : String) : Bool :=
  jsIncludes m "Coordinates are not a valid input"

/-- `err.message?.includes('no response') || err.message?.includes('no text')`
(source line 1003). -/
def isNoRespErr (m : String) : Bool :=
  jsIncludes m "no response" || jsIncludes m "no text"

/-- The outer catch condition of source lines 1011-1012. -/
def isSafetyErr (m : String) : Bool :=
  isNoRespErr m || jsIncludes m "safety" || jsIncludes m "blocked"

/-- `runTextOnlySearch` (source lines 922-949): one text-only call; an empty
response makes `parseResponse` throw `noResponseMsg`. -/
def runTextOnlySearch (R : Type) (oracle : Nat → ServiceResult)
    (decodeText : String → Except String R) (st : CallState) :
    Except String R × CallState :=
  let c := svcCall oracle .textOnly st
  match c.1 with
  | .threw m => (.error m, c.2)
  | .returned t =>
    if t = "" then (.error noResponseMsg, c.2)
    else (decodeText t, c.2)

/-- The shared body of the main attempt and of the tool-reduced retry of
`runFinalSearch` (source lines 952-973 and 981-1000): one call with the given
toolset; an empty response text falls back to the text-only search (inside
the same `try`, so its errors flow to the enclosing catch); otherwise the
response is decoded. -/
def attemptWithTools (R : Type) (oracle : Nat → ServiceResult)
    (decodeMain decodeText : String → Except String R) (mode : CallMode)
    (st : CallState) : Except String R × CallState :=
  match svcCall oracle mode st with
  | (.threw m, st1) => (.error m, st1)
  | (.returned t, st1) =>
    if t = "" then runTextOnlySearch R oracle decodeText st1
    else (decodeMain t, st1)

/-- `runFinalSearch` (source lines 849-1018). The `return await
runTextOnlySearch()` of the empty-response path (source line 965) sits inside
the `try`, so an error it throws is classified again by the catch; the two
text-only calls launched from inside catch blocks (source lines 1004, 1013)
propagate their errors. -/
def runFinalSearch (R : Type) (oracle : Nat → ServiceResult)
    (decodeMain decodeText : String → Except String R) (st : CallState) :
    Except String R × CallState :=
  match attemptWithTools R oracle decodeMain decodeText .fullTools st with
  | (.ok v, st2) => (.ok v, st2)
  | (.error m, st2) =>
    if isCoordErr m then
      match attemptWithTools R oracle decodeMain decodeText .searchOnly st2 with
      | (.ok v, st4) => (.ok v, st4)
      | (.error m2, st4) =>
        if isNoRespErr m2 then runTextOnlySearch R oracle decodeText st4
        else (.error m2, st4)
    else if isSafetyErr m then runTextOnlySearch R oracle decodeText st2
    else (.error m, st2)

/-! ### Pipeline Orchestrator: `analyzeImageLocation` (source lines 1454-1557) -/

/-- The error thrown when every clue expert failed (source line 1478). -/
def allExpertsFailedMsg : String := "All expert analyses failed. Please try again."

/-- The clue-only fallback result built when the final search fails
(source lines 1525-1552). -/
def fallbackResult (aggregatedClues : AggregatedClues) : GeoAnalysisResult :=
  { locationName := "Location could not be determined"
    coordinates := none
    confidenceScore := 20
    confidence := { region := some 20, localLevel := some 5 }
    isDefinitive := true
    candidates := none
    reasoning :=
      ["Analysis based on visual clues only (search failed)",
       "Found " ++ toString aggregatedClues.searchableClues.length ++
         " clues but could not verify via search"] ++
      (aggregatedClues.suggestedSearchQueries.take 3).map
        (fun q => "Suggested search: \"" ++ q ++ "\"")
    evidence := aggregatedClues.searchableClues.map fun c =>
      { clue := c.clue
        strength :=
          if c.type = "business_name" || c.type = "street_name" then "hard"
          else "medium"
        supports := "Unknown - search failed" }
    alternativeLocations := []
    uncertainties := ["Could not perform web search to verify location"]
    visualCues :=
      { signs := String.intercalate "; " aggregatedClues.allText
        architecture := String.intercalate "; " aggregatedClues.allInfrastructure
        environment := String.intercalate "; " aggregatedClues.allNature
        demographics := "" }
    searchQueriesUsed := aggregatedClues.suggestedSearchQueries
    sources := [] }

/-- `analyzeImageLocation` (source lines 1454-1557) downstream of the expert
panel: the panel outcome is the already-run `clueExperts` list, and the final
search runs against the oracle. On success the result is forced definitive
with no candidates and empty `alternativeLocations` are backfilled from the
uncertainties; on failure the clue-only fallback is returned. -/
def analyzeImageLocation (clueExperts : List ClueExpertOutput)
    (oracle : Nat → ServiceResult)
    (decodeMain decodeText : String → Except String GeoAnalysisResult) :
    Except String GeoAnalysisResult :=
  if clueExperts.isEmpty then .error allExpertsFailedMsg
  else
    let aggregatedClues := aggregateClues clueExperts
    match (runFinalSearch GeoAnalysisResult oracle decodeMain decodeText ⟨0, []⟩).1 with
    | .ok result =>
      let r1 := { result with isDefinitive := true, candidates := none }
      let r2 :=
        if r1.alternativeLocations.isEmpty then
          { r1 with alternativeLocations :=
              (r1.uncertainties.filter fun u =>
                jsIncludes (lowerStr u) "could be" ||
                jsIncludes (lowerStr u) "also possible").take 3 }
        else r1
      .ok r2
    | .error _ => .ok (fallbackResult aggregatedClues)

/-- The pipeline from the raw expert-call outcomes (for the claims that tie
the Runner to the Orchestrator). -/
def analyzePipeline (o1 o2 o3 : Except String RawExpertParsed)
    (oracle : Nat → ServiceResult)
    (decodeMain decodeText : String → Except String GeoAnalysisResult) :
    Except String GeoAnalysisResult :=
  analyzeImageLocation (runAllClueExperts o1 o2 o3) oracle decodeMain decodeText

/-! ## Helper lemmas -/

theorem floor_half : ⌊(1/2 : ℚ)⌋ = 0 := by
  rw [Int.floor_eq_zero_iff]; constructor <;> norm_num

theorem jsRound_intCast (z : ℤ) : jsRound (z : ℚ) = z := by
  rw [jsRound, add_comm, Int.floor_add_int, floor_half, zero_add]

theorem jsRound_le {q : ℚ} {z : ℤ} (h : q ≤ (z : ℚ)) : jsRound q ≤ z := by
  have := Int.floor_mono (add_le_add_right h (1/2 : ℚ))
  rwa [show (z:ℚ) + 1/2 = 1/2 + (z:ℚ) by ring, Int.floor_add_int, floor_half,
    zero_add] at this

theorem le_jsRound {q : ℚ} {z : ℤ} (h : (z : ℚ) ≤ q) : z ≤ jsRound q :=
  Int.le_floor.mpr (by linarith)

theorem jsRound_nonneg {q : ℚ} (h : 0 ≤ q) : 0 ≤ jsRound q :=
  le_jsRound (by exact_mod_cast h)

theorem jsRound_cast_le (q : ℚ) : (jsRound q : ℚ) ≤ q + 1/2 := Int.floor_le _

theorem jsRound_ratDiv (a : ℤ) (b : ℕ) :
    jsRound ((a : ℚ) / (b : ℚ)) = (2 * a + b) / ((2 * b : ℕ) : ℤ) := by
  rcases Nat.eq_zero_or_pos b with hb | hb
  · subst hb
    rw [show ((0:ℕ):ℚ) = 0 by norm_num, div_zero, jsRound, zero_add, floor_half]
    rw [show ((2*0:ℕ):ℤ) = 0 by norm_num, Int.ediv_zero]
  · have hbq : ((b : ℕ) : ℚ) ≠ 0 := by positivity
    have h1 : (a : ℚ) / (b : ℚ) + 1/2 = ((2*a + b : ℤ) : ℚ) / ((2*b : ℕ) : ℚ) := by
      push_cast
      field_simp
      ring
    rw [jsRound, h1, Rat.floor_intCast_div_natCast]

theorem probability_eval (s t : Int) (ht : 0 < t) :
    probability s t = (200 * max 0 s + t) / (2 * t) := by
  have htn : ((t.toNat : ℕ) : ℤ) = t := Int.toNat_of_nonneg ht.le
  have htq : ((t.toNat : ℕ) : ℚ) = (t : ℚ) := by exact_mod_cast htn
  have h1 : ((max 0 s : Int) : ℚ) / (t : ℚ) * 100
      = ((100 * max 0 s : ℤ) : ℚ) / ((t.toNat : ℕ) : ℚ) := by
    rw [htq]; push_cast; ring
  have e1 : 2 * (100 * max 0 s) + (t.toNat : ℤ) = 200 * max 0 s + t := by
    rw [htn]; ring
  have e2 : ((2 * t.toNat : ℕ) : ℤ) = 2 * t := by push_cast [htn]; ring
  rw [probability, h1, jsRound_ratDiv, e1, e2]

/-! ### Lemmas about the Consensus/Candidate Builder -/

theorem descBy_trans : ∀ a b c : LocationCandidate,
    (decide (b.probability ≤ a.probability)) = true →
    (decide (c.probability ≤ b.probability)) = true →
    (decide (c.probability ≤ a.probability)) = true := by
  intro a b c h1 h2
  simp only [decide_eq_true_eq] at *
  exact le_trans h2 h1

theorem descBy_total : ∀ a b : LocationCandidate,
    ((decide (b.probability ≤ a.probability)) ||
     (decide (a.probability ≤ b.probability))) = true := by
  intro a b
  rcases le_total a.probability b.probability with h | h <;> simp [h]

theorem rankedCandidates_perm (pool : List TopRegion) (t : Int) :
    (rankedCandidates pool t).Perm (pool.map (mkCandidate t)) :=
  List.mergeSort_perm _ _

theorem rankedCandidates_sorted (pool : List TopRegion) (t : Int) :
    (rankedCandidates pool t).Pairwise
      (fun a b => b.probability ≤ a.probability) := by
  have h := List.sorted_mergeSort descBy_trans descBy_total
    (pool.map (mkCandidate t))
  exact h.imp fun hab => of_decide_eq_true hab

theorem rankedCandidates_length (pool : List TopRegion) (t : Int) :
    (rankedCandidates pool t).length = pool.length := by
  rw [(rankedCandidates_perm pool t).length_eq, List.length_map]

/-- Full characterization of `buildCandidatesFromConsensus` on a pool that is
non-empty with positive total score. -/
theorem buildCandidates_char (l : List TopRegion)
    (hne : l.take 5 ≠ []) (ht : 0 < totalScoreOf l) :
    ∃ top rest,
      rankedCandidates (l.take 5) (totalScoreOf l) = top :: rest ∧
      ((buildCandidatesFromConsensus l).1 = true ↔
        (DEFINITIVE_THRESHOLD ≤ top.probability ∨
          ∃ second rest2, rest = second :: rest2 ∧
            GAP_THRESHOLD ≤ top.probability - second.probability)) ∧
      ((buildCandidatesFromConsensus l).1 = true →
        (buildCandidatesFromConsensus l).2 = [top]) ∧
      ((buildCandidatesFromConsensus l).1 = false →
        (buildCandidatesFromConsensus l).2 =
          ((top :: rest).filter fun c =>
            decide (MIN_CANDIDATE_THRESHOLD ≤ c.probability)).take 3) ∧
      (∀ c ∈ top :: rest, c.probability ≤ top.probability) ∧
      (top :: rest).Pairwise (fun a b => b.probability ≤ a.probability) := by
  have hlen : 0 < (rankedCandidates (l.take 5) (totalScoreOf l)).length := by
    rw [rankedCandidates_length]
    exact List.length_pos.mpr hne
  obtain ⟨top, rest, hranked⟩ :
      ∃ top rest, rankedCandidates (l.take 5) (totalScoreOf l) = top :: rest := by
    rcases h : rankedCandidates (l.take 5) (totalScoreOf l) with _ | ⟨a, as⟩
    · rw [h] at hlen; simp at hlen
    · exact ⟨a, as, rfl⟩
  have hsorted := rankedCandidates_sorted (l.take 5) (totalScoreOf l)
  rw [hranked] at hsorted
  have hmax : ∀ c ∈ top :: rest, c.probability ≤ top.probability := by
    intro c hc
    rcases List.mem_cons.mp hc with rfl | hc
    · exact le_refl _
    · exact (List.pairwise_cons.mp hsorted).1 c hc
  have hempty : (l.take 5).isEmpty = false := by
    simp [List.isEmpty_iff, hne]
  refine ⟨top, rest, hranked, ?_, ?_, ?_, hmax, hsorted⟩ <;>
  · simp only [buildCandidatesFromConsensus, hempty, Bool.false_eq_true,
      if_false, if_neg ht.ne', hranked]
    rcases rest with _ | ⟨second, rest2⟩
    · simp only [Bool.or_false]
      by_cases hdef : DEFINITIVE_THRESHOLD ≤ top.probability <;>
        simp [hdef]
    · by_cases hdef : DEFINITIVE_THRESHOLD ≤ top.probability <;>
      by_cases hgap : GAP_THRESHOLD ≤ top.probability - second.probability <;>
        simp [hdef, hgap]

theorem sum_max_nonneg (P : List TopRegion) :
    0 ≤ (P.map fun r => max 0 r.score).sum :=
  List.sum_nonneg fun x hx => by
    obtain ⟨r, _, rfl⟩ := List.mem_map.mp hx
    exact le_max_left 0 r.score

theorem maxzero_le_total {P : List TopRegion} {r : TopRegion} (hr : r ∈ P) :
    max 0 r.score ≤ (P.map fun r => max 0 r.score).sum :=
  List.single_le_sum
    (fun x hx => by
      obtain ⟨s, _, rfl⟩ := List.mem_map.mp hx
      exact le_max_left 0 s.score)
    _ (List.mem_map_of_mem _ hr)

theorem probability_nonneg (s t : Int) (ht : 0 < t) : 0 ≤ probability s t := by
  apply jsRound_nonneg
  apply mul_nonneg
  · apply div_nonneg
    · exact_mod_cast le_max_left 0 s
    · exact_mod_cast ht.le
  · norm_num

theorem probability_le_100 {s t : Int} (ht : 0 < t) (hle : max 0 s ≤ t) :
    probability s t ≤ 100 := by
  apply jsRound_le
  have h1 : ((max 0 s : Int) : ℚ) ≤ (t : ℚ) := by exact_mod_cast hle
  have ht' : (0 : ℚ) < (t : ℚ) := by exact_mod_cast ht
  have : ((max 0 s : Int) : ℚ) / (t : ℚ) * 100 ≤ 1 * 100 :=
    mul_le_mul_of_nonneg_right ((div_le_one ht').mpr h1) (by norm_num)
  calc ((max 0 s : Int) : ℚ) / (t : ℚ) * 100 ≤ 1 * 100 := this
    _ = ((100 : ℤ) : ℚ) := by norm_num

theorem list_sum_map_add_const {α : Type} (l : List α) (f : α → ℚ) (c : ℚ) :
    (l.map fun x => f x + c).sum = (l.map f).sum + l.length * c := by
  induction l with
  | nil => simp
  | cons a as ih => simp [ih]; ring

theorem sum_shares {P : List TopRegion}
    (ht : 0 < (P.map fun r => max 0 r.score).sum) :
    (P.map fun r =>
      ((max 0 r.score : Int) : ℚ) /
        (((P.map fun r => max 0 r.score).sum : Int) : ℚ) * 100).sum = 100 := by
  set t : Int := (P.map fun r => max 0 r.score).sum with htdef
  have htq : ((t : Int) : ℚ) ≠ 0 := by
    have : (0 : ℚ) < (t : ℚ) := by exact_mod_cast ht
    exact this.ne'
  have h1 : ∀ r : TopRegion,
      ((max 0 r.score : Int) : ℚ) / ((t : Int) : ℚ) * 100
        = ((max 0 r.score : Int) : ℚ) * (100 / ((t : Int) : ℚ)) := by
    intro r; ring
  simp only [h1]
  rw [List.sum_map_mul_right]
  have h2 : (P.map fun r => ((max 0 r.score : Int) : ℚ)).sum = ((t : Int) : ℚ) := by
    have h3 := (map_list_sum (Int.castRingHom ℚ) (P.map fun r => max 0 r.score)).symm
    rw [List.map_map] at h3
    rw [htdef]
    convert h3 using 2
  rw [h2]
  field_simp

theorem exists_prob_ge_20 {P : List TopRegion} (hlen : P.length ≤ 5)
    (ht : 0 < (P.map fun r => max 0 r.score).sum) :
    ∃ r ∈ P, 20 ≤ probability r.score ((P.map fun r => max 0 r.score).sum) := by
  set t : Int := (P.map fun r => max 0 r.score).sum with htdef
  set S : List ℚ :=
    P.map (fun r => ((max 0 r.score : Int) : ℚ) / ((t : Int) : ℚ) * 100) with hSdef
  have hPne : P ≠ [] := by
    rintro rfl
    simp [htdef] at ht
  have hSne : S ≠ [] := by
    simp [hSdef, hPne]
  have hSnonneg : ∀ x ∈ S, 0 ≤ x := by
    intro x hx
    obtain ⟨r, _, rfl⟩ := List.mem_map.mp hx
    apply mul_nonneg
    · apply div_nonneg
      · exact_mod_cast le_max_left 0 r.score
      · exact_mod_cast ht.le
    · norm_num
  rcases hm : S.maximum with _ | m
  · exact absurd (List.maximum_eq_none.mp hm) hSne
  · have hmem : m ∈ S := List.maximum_mem hm
    have hbound : ∀ x ∈ S, x ≤ m := fun x hx => List.le_maximum_of_mem hx hm
    have hsum : S.sum = 100 := sum_shares ht
    have hm0 : 0 ≤ m := hSnonneg m hmem
    have hcard : (S.length : ℚ) ≤ 5 := by
      have : S.length = P.length := by simp [hSdef]
      rw [this]
      exact_mod_cast hlen
    have h100 : (100 : ℚ) ≤ 5 * m := by
      have h5 := List.sum_le_card_nsmul S m hbound
      rw [hsum, nsmul_eq_mul] at h5
      have := mul_le_mul_of_nonneg_right hcard hm0
      linarith
    have hm20 : (20 : ℚ) ≤ m := by linarith
    obtain ⟨r, hrP, hrm⟩ := List.mem_map.mp hmem
    refine ⟨r, hrP, ?_⟩
    apply le_jsRound
    rw [hrm]
    exact_mod_cast hm20

theorem intCast_list_sum (l : List ℤ) :
    ((l.sum : ℤ) : ℚ) = (l.map fun z : ℤ => (z : ℚ)).sum := by
  induction l with
  | nil => simp
  | cons a as ih => simp [ih]

theorem ranked_mem_spec {l : List TopRegion} {c : LocationCandidate}
    (hc : c ∈ rankedCandidates (l.take 5) (totalScoreOf l)) :
    ∃ r ∈ l.take 5, c = mkCandidate (totalScoreOf l) r := by
  have := (rankedCandidates_perm (l.take 5) (totalScoreOf l)).mem_iff.mp hc
  obtain ⟨r, hr, rfl⟩ := List.mem_map.mp this
  exact ⟨r, hr, rfl⟩

theorem build_probability_bounds (l : List TopRegion) (ht : 0 < totalScoreOf l) :
    ∀ c ∈ rankedCandidates (l.take 5) (totalScoreOf l),
      (∃ r ∈ l.take 5,
        c.probability =
          jsRound (((max 0 r.score : Int) : ℚ) / ((totalScoreOf l : Int) : ℚ) * 100)) ∧
      0 ≤ c.probability ∧ c.probability ≤ 100 := by
  intro c hc
  obtain ⟨r, hr, rfl⟩ := ranked_mem_spec hc
  refine ⟨⟨r, hr, rfl⟩, probability_nonneg _ _ ht, ?_⟩
  exact probability_le_100 ht (maxzero_le_total hr)

theorem build_sum_le (l : List TopRegion) :
    (((buildCandidatesFromConsensus l).2).map fun c => c.probability).sum ≤ 101 := by
  cases hE : (l.take 5).isEmpty with
  | true => simp [buildCandidatesFromConsensus, hE]
  | false =>
    by_cases hT : totalScoreOf l = 0
    · simp [buildCandidatesFromConsensus, hE, hT]
    · have ht : 0 < totalScoreOf l := lt_of_le_of_ne (sum_max_nonneg _) (Ne.symm hT)
      have hne : l.take 5 ≠ [] := by
        intro h; rw [h] at hE; simp at hE
      obtain ⟨top, rest, hranked, _, hdefcase, hambcase, hmax, _⟩ :=
        buildCandidates_char l hne ht
      cases hB : (buildCandidatesFromConsensus l).1 with
      | true =>
        rw [hdefcase hB]
        have htop : top ∈ rankedCandidates (l.take 5) (totalScoreOf l) := by
          rw [hranked]; exact List.mem_cons_self _ _
        obtain ⟨r, hr, rfl⟩ := ranked_mem_spec htop
        have h100 : probability r.score (totalScoreOf l) ≤ 100 :=
          probability_le_100 ht (maxzero_le_total hr)
        simp only [List.map_cons, List.map_nil, List.sum_cons, List.sum_nil,
          add_zero, mkCandidate]
        omega
      | false =>
        rw [hambcase hB, ← hranked]
        have hsub : (((rankedCandidates (l.take 5) (totalScoreOf l)).filter fun c =>
            decide (MIN_CANDIDATE_THRESHOLD ≤ c.probability)).take 3).Sublist
            (rankedCandidates (l.take 5) (totalScoreOf l)) :=
          (List.take_sublist _ _).trans (List.filter_sublist _)
        have hsp : (((rankedCandidates (l.take 5) (totalScoreOf l)).filter fun c =>
            decide (MIN_CANDIDATE_THRESHOLD ≤ c.probability)).take 3).Subperm
            ((l.take 5).map (mkCandidate (totalScoreOf l))) :=
          hsub.subperm.trans (rankedCandidates_perm _ _).subperm
        obtain ⟨S0, hS0p, hS0s⟩ := hsp
        obtain ⟨P2, hP2sub, rfl⟩ := List.sublist_map_iff.mp hS0s
        have hlen3 : (((rankedCandidates (l.take 5) (totalScoreOf l)).filter fun c =>
            decide (MIN_CANDIDATE_THRESHOLD ≤ c.probability)).take 3).length ≤ 3 :=
          List.length_take_le _ _
        have hlenP2 : P2.length ≤ 3 := by
          have h1 : (P2.map (mkCandidate (totalScoreOf l))).length
              = (((rankedCandidates (l.take 5) (totalScoreOf l)).filter fun c =>
                  decide (MIN_CANDIDATE_THRESHOLD ≤ c.probability)).take 3).length :=
            hS0p.length_eq
          rw [List.length_map] at h1
          omega
        have hsumeq : ((((rankedCandidates (l.take 5) (totalScoreOf l)).filter fun c =>
            decide (MIN_CANDIDATE_THRESHOLD ≤ c.probability)).take 3).map
              fun c => c.probability).sum
            = (P2.map fun r => probability r.score (totalScoreOf l)).sum := by
          have h1 := (hS0p.map fun c => c.probability).sum_eq
          simpa [List.map_map, Function.comp, mkCandidate] using h1.symm
        rw [hsumeq]
        have hq : ((P2.map fun r => probability r.score (totalScoreOf l)).sum : ℚ)
            ≤ 100 + 3/2 := by
          rw [intCast_list_sum, List.map_map]
          have hpoint : ∀ r ∈ P2,
              ((fun z : ℤ => (z : ℚ)) ∘ fun r => probability r.score (totalScoreOf l)) r ≤
              ((max 0 r.score : Int) : ℚ) / ((totalScoreOf l : Int) : ℚ) * 100 + 1/2 := by
            intro r _
            exact jsRound_cast_le _
          have h2 := List.sum_le_sum hpoint
          have h3 := list_sum_map_add_const P2
            (fun r => ((max 0 r.score : Int) : ℚ) / ((totalScoreOf l : Int) : ℚ) * 100)
            (1/2)
          have h4 : (P2.map fun r =>
              ((max 0 r.score : Int) : ℚ) / ((totalScoreOf l : Int) : ℚ) * 100).sum
              ≤ ((l.take 5).map fun r =>
                  ((max 0 r.score : Int) : ℚ) / ((totalScoreOf l : Int) : ℚ) * 100).sum := by
            apply List.Sublist.sum_le_sum (hP2sub.map _)
            intro x hx
            obtain ⟨r, _, rfl⟩ := List.mem_map.mp hx
            apply mul_nonneg
            · apply div_nonneg
              · exact_mod_cast le_max_left 0 r.score
              · exact_mod_cast ht.le
            · norm_num
          have h5 : ((l.take 5).map fun r =>
              ((max 0 r.score : Int) : ℚ) / ((totalScoreOf l : Int) : ℚ) * 100).sum
              = 100 := sum_shares ht
          have h6 : (P2.length : ℚ) * (1/2) ≤ 3 * (1/2) := by
            have : (P2.length : ℚ) ≤ 3 := by exact_mod_cast hlenP2
            linarith
          calc (P2.map ((fun z : ℤ => (z : ℚ)) ∘
                fun r => probability r.score (totalScoreOf l))).sum
              ≤ (P2.map fun r =>
                  ((max 0 r.score : Int) : ℚ) / ((totalScoreOf l : Int) : ℚ) * 100
                    + 1/2).sum := h2
            _ = (P2.map fun r =>
                  ((max 0 r.score : Int) : ℚ) / ((totalScoreOf l : Int) : ℚ) * 100).sum
                + P2.length * (1/2) := h3
            _ ≤ 100 + 3 * (1/2) := by linarith
            _ = 100 + 3/2 := by norm_num
        have hq2 : ((P2.map fun r => probability r.score (totalScoreOf l)).sum : ℚ)
            < 102 := by linarith
        have hlt : (P2.map fun r => probability r.score (totalScoreOf l)).sum < 102 := by
          exact_mod_cast hq2
        omega

theorem analyze_ok_spec (experts : List ClueExpertOutput)
    (oracle : Nat → ServiceResult)
    (dM dT : String → Except String GeoAnalysisResult) (r : GeoAnalysisResult)
    (h : analyzeImageLocation experts oracle dM dT = .ok r) :
    r.isDefinitive = true ∧ r.candidates = none := by
  unfold analyzeImageLocation at h
  by_cases hE : experts.isEmpty
  · simp [hE] at h
  · simp only [hE, Bool.false_eq_true, if_false] at h
    cases hrun : (runFinalSearch GeoAnalysisResult oracle dM dT ⟨0, []⟩).1 with
    | error m =>
      rw [hrun] at h
      simp only [Except.ok.injEq] at h
      subst h
      exact ⟨rfl, rfl⟩
    | ok result =>
      rw [hrun] at h
      simp only [Except.ok.injEq] at h
      subst h
      constructor <;> split <;> rfl

/-! ## Claim C1: decision rule of the Consensus/Candidate Builder -/

/-- C1: for every expert consensus whose candidate pool is non-empty with
positive total score, the Builder classifies the outcome as definitive iff
the top candidate's probability is >= 75 or the top probability minus the
second probability is >= 40; in the definitive case it returns exactly the
top candidate, and in the ambiguous case the candidates with probability
>= 15, in descending probability order, capped at 3. -/
theorem claim_consensus_decision (l : List TopRegion)
    (hne : l.take 5 ≠ []) (ht : 0 < totalScoreOf l) :
    ∃ top rest,
      rankedCandidates (l.take 5) (totalScoreOf l) = top :: rest ∧
      ((buildCandidatesFromConsensus l).1 = true ↔
        (DEFINITIVE_THRESHOLD ≤ top.probability ∨
          ∃ second rest2, rest = second :: rest2 ∧
            GAP_THRESHOLD ≤ top.probability - second.probability)) ∧
      ((buildCandidatesFromConsensus l).1 = true →
        (buildCandidatesFromConsensus l).2 = [top]) ∧
      ((buildCandidatesFromConsensus l).1 = false →
        (buildCandidatesFromConsensus l).2 =
          ((top :: rest).filter fun c =>
            decide (MIN_CANDIDATE_THRESHOLD ≤ c.probability)).take 3) ∧
      (∀ c ∈ top :: rest, c.probability ≤ top.probability) ∧
      (top :: rest).Pairwise (fun a b => b.probability ≤ a.probability) :=
  buildCandidates_char l hne ht

/-- The spec's own definitive example: scores japan 200, thailand 20. -/
def c1pool : List TopRegion := [⟨"japan", 200, []⟩, ⟨"thailand", 20, []⟩]

/-- Witness for C1 at the spec's japan/thailand example. -/
theorem claim_consensus_decision_witness :
    (c1pool.take 5 ≠ [] ∧ 0 < totalScoreOf c1pool) ∧
    (∃ top rest,
      rankedCandidates (c1pool.take 5) (totalScoreOf c1pool) = top :: rest ∧
      ((buildCandidatesFromConsensus c1pool).1 = true ↔
        (DEFINITIVE_THRESHOLD ≤ top.probability ∨
          ∃ second rest2, rest = second :: rest2 ∧
            GAP_THRESHOLD ≤ top.probability - second.probability)) ∧
      ((buildCandidatesFromConsensus c1pool).1 = true →
        (buildCandidatesFromConsensus c1pool).2 = [top]) ∧
      ((buildCandidatesFromConsensus c1pool).1 = false →
        (buildCandidatesFromConsensus c1pool).2 =
          ((top :: rest).filter fun c =>
            decide (MIN_CANDIDATE_THRESHOLD ≤ c.probability)).take 3) ∧
      (∀ c ∈ top :: rest, c.probability ≤ top.probability) ∧
      (top :: rest).Pairwise (fun a b => b.probability ≤ a.probability)) :=
  ⟨⟨by decide, by decide⟩, claim_consensus_decision c1pool (by decide) (by decide)⟩

/-! ## Claim C2: presence and length of the candidates field -/

/-- The same definitive pool, for the C2 counterexample. -/
def c2pool : List TopRegion := [⟨"japan", 200, []⟩, ⟨"thailand", 20, []⟩]

theorem c2pool_eval :
    buildCandidatesFromConsensus c2pool = (true, [⟨"Japan", none, 91, [], []⟩]) := by
  have h1 : probability 200 220 = 91 := by
    rw [probability_eval _ _ (by decide)]; decide
  have h2 : probability 20 220 = 9 := by
    rw [probability_eval _ _ (by decide)]; decide
  have htot : totalScoreOf c2pool = 220 := by decide
  have hc1 : mkCandidate 220 ⟨"japan", 200, []⟩ = ⟨"Japan", none, 91, [], []⟩ := by
    simp only [mkCandidate, h1]; decide
  have hc2 : mkCandidate 220 ⟨"thailand", 20, []⟩ = ⟨"Thailand", none, 9, [], []⟩ := by
    simp only [mkCandidate, h2]; decide
  have hm : (c2pool.take 5).map (mkCandidate (totalScoreOf c2pool))
      = [⟨"Japan", none, 91, [], []⟩, ⟨"Thailand", none, 9, [], []⟩] := by
    rw [htot, show c2pool.take 5 = c2pool from by decide]
    simp only [c2pool, List.map]
    rw [hc1, hc2]
  have hsort : rankedCandidates (c2pool.take 5) (totalScoreOf c2pool)
      = [⟨"Japan", none, 91, [], []⟩, ⟨"Thailand", none, 9, [], []⟩] := by
    rw [rankedCandidates, hm]
    simp [List.mergeSort, List.merge]
  simp only [buildCandidatesFromConsensus, hsort]
  decide

/-- C2 counterexample: the Builder output at the definitive japan/thailand
consensus has `isDefinitive = true` AND a (non-empty) `candidates` list, so
candidates are not present only in the ambiguous case. (The Builder also
returns a length-0 list for an empty pool, against the claimed length 1-3.) -/
theorem claim_candidates_presence_cex :
    (buildCandidatesFromConsensus c2pool).1 = true ∧
    (buildCandidatesFromConsensus c2pool).2 ≠ [] ∧
    (buildCandidatesFromConsensus []).1 = false ∧
    (buildCandidatesFromConsensus []).2 = [] := by
  rw [c2pool_eval]
  refine ⟨rfl, by simp, ?_, ?_⟩ <;> rfl

theorem build_len_le3 (l : List TopRegion) :
    ((buildCandidatesFromConsensus l).2).length ≤ 3 := by
  cases hE : (l.take 5).isEmpty with
  | true => simp [buildCandidatesFromConsensus, hE]
  | false =>
    by_cases hT : totalScoreOf l = 0
    · simp [buildCandidatesFromConsensus, hE, hT]
    · have ht : 0 < totalScoreOf l := lt_of_le_of_ne (sum_max_nonneg _) (Ne.symm hT)
      have hne : l.take 5 ≠ [] := by
        intro h; rw [h] at hE; simp at hE
      obtain ⟨top, rest, _, _, hdefcase, hambcase, _, _⟩ :=
        buildCandidates_char l hne ht
      cases hB : (buildCandidatesFromConsensus l).1 with
      | true => rw [hdefcase hB]; simp
      | false => rw [hambcase hB]; exact List.length_take_le _ _

theorem build_def_len1 (l : List TopRegion)
    (hB : (buildCandidatesFromConsensus l).1 = true) :
    ((buildCandidatesFromConsensus l).2).length = 1 := by
  cases hE : (l.take 5).isEmpty with
  | true => simp [buildCandidatesFromConsensus, hE] at hB
  | false =>
    by_cases hT : totalScoreOf l = 0
    · simp [buildCandidatesFromConsensus, hE, hT] at hB
    · have ht : 0 < totalScoreOf l := lt_of_le_of_ne (sum_max_nonneg _) (Ne.symm hT)
      have hne : l.take 5 ≠ [] := by
        intro h; rw [h] at hE; simp at hE
      obtain ⟨top, rest, _, _, hdefcase, _, _, _⟩ := buildCandidates_char l hne ht
      rw [hdefcase hB]
      rfl

theorem build_amb_len_ge1 (l : List TopRegion)
    (hne : l.take 5 ≠ []) (ht : 0 < totalScoreOf l)
    (hB : (buildCandidatesFromConsensus l).1 = false) :
    1 ≤ ((buildCandidatesFromConsensus l).2).length := by
  obtain ⟨top, rest, hranked, _, _, hambcase, hmax, _⟩ :=
    buildCandidates_char l hne ht
  obtain ⟨r, hr, h20⟩ := exists_prob_ge_20 (List.length_take_le 5 l) ht
  have hc : mkCandidate (totalScoreOf l) r ∈ top :: rest := by
    rw [← hranked]
    exact (rankedCandidates_perm _ _).mem_iff.mpr (List.mem_map_of_mem _ hr)
  have h20c : 20 ≤ (mkCandidate (totalScoreOf l) r).probability := h20
  have htop20 : 20 ≤ top.probability := le_trans h20c (hmax _ hc)
  have hp : (decide (MIN_CANDIDATE_THRESHOLD ≤ top.probability)) = true := by
    rw [decide_eq_true_eq]
    show (15 : Int) ≤ top.probability
    omega
  rw [hambcase hB]
  simp [List.filter_cons, hp]

/-- C2 (amended): pipeline results from `analyzeImageLocation` never carry
candidates; the Builder's candidates list always has length at most 3, has
length exactly 1 in the definitive case, and length at least 1 in the
ambiguous case when the pool is non-empty with positive total score
(length 0 exactly when the pool is empty or the total score is zero). -/
theorem claim_candidates_presence :
    (∀ l, ((buildCandidatesFromConsensus l).2).length ≤ 3) ∧
    (∀ l, (buildCandidatesFromConsensus l).1 = true →
      ((buildCandidatesFromConsensus l).2).length = 1) ∧
    (∀ l, l.take 5 ≠ [] → 0 < totalScoreOf l →
      (buildCandidatesFromConsensus l).1 = false →
      1 ≤ ((buildCandidatesFromConsensus l).2).length) ∧
    (∀ experts oracle dM dT r,
      analyzeImageLocation experts oracle dM dT = .ok r → r.candidates = none) :=
  ⟨build_len_le3, build_def_len1, build_amb_len_ge1,
    fun experts oracle dM dT r h => (analyze_ok_spec experts oracle dM dT r h).2⟩

/-- The spec's own ambiguous example: scores poland 150, germany 70. -/
def c2wpool : List TopRegion := [⟨"poland", 150, []⟩, ⟨"germany", 70, []⟩]

theorem c2wpool_eval :
    buildCandidatesFromConsensus c2wpool =
      (false, [⟨"Poland", none, 68, [], []⟩, ⟨"Germany", none, 32, [], []⟩]) := by
  have h1 : probability 150 220 = 68 := by
    rw [probability_eval _ _ (by decide)]; decide
  have h2 : probability 70 220 = 32 := by
    rw [probability_eval _ _ (by decide)]; decide
  have htot : totalScoreOf c2wpool = 220 := by decide
  have hc1 : mkCandidate 220 ⟨"poland", 150, []⟩ = ⟨"Poland", none, 68, [], []⟩ := by
    simp only [mkCandidate, h1]; decide
  have hc2 : mkCandidate 220 ⟨"germany", 70, []⟩ = ⟨"Germany", none, 32, [], []⟩ := by
    simp only [mkCandidate, h2]; decide
  have hm : (c2wpool.take 5).map (mkCandidate (totalScoreOf c2wpool))
      = [⟨"Poland", none, 68, [], []⟩, ⟨"Germany", none, 32, [], []⟩] := by
    rw [htot, show c2wpool.take 5 = c2wpool from by decide]
    simp only [c2wpool, List.map]
    rw [hc1, hc2]
  have hsort : rankedCandidates (c2wpool.take 5) (totalScoreOf c2wpool)
      = [⟨"Poland", none, 68, [], []⟩, ⟨"Germany", none, 32, [], []⟩] := by
    rw [rankedCandidates, hm]
    simp [List.mergeSort, List.merge]
  simp only [buildCandidatesFromConsensus, hsort]
  decide

/-- Witness for C2 at the spec's poland/germany ambiguous example and at a
concrete fallback run of the pipeline. -/
theorem claim_candidates_presence_witness :
    ((buildCandidatesFromConsensus c2wpool).2).length ≤ 3 ∧
    ((buildCandidatesFromConsensus c2pool).1 = true →
      ((buildCandidatesFromConsensus c2pool).2).length = 1) ∧
    (c2wpool.take 5 ≠ [] ∧ 0 < totalScoreOf c2wpool ∧
      (buildCandidatesFromConsensus c2wpool).1 = false ∧
      1 ≤ ((buildCandidatesFromConsensus c2wpool).2).length) := by
  refine ⟨claim_candidates_presence.1 c2wpool,
    claim_candidates_presence.2.1 c2pool, by decide, by decide, ?_, ?_⟩
  · rw [c2wpool_eval]
  · exact claim_candidates_presence.2.2.1 c2wpool (by decide) (by decide)
      (by rw [c2wpool_eval])

/-! ## Claim C3: probability normalization and the probability sum -/

/-- The pool refuting the claimed bound: scores 48, 48, 32 (total 128) give
probabilities 38, 38, 25, which sum to 101. -/
def c3pool : List TopRegion := [⟨"aa", 48, []⟩, ⟨"bb", 48, []⟩, ⟨"cc", 32, []⟩]

theorem c3pool_eval :
    buildCandidatesFromConsensus c3pool =
      (false, [⟨"Aa", none, 38, [], []⟩, ⟨"Bb", none, 38, [], []⟩,
               ⟨"Cc", none, 25, [], []⟩]) := by
  have h1 : probability 48 128 = 38 := by
    rw [probability_eval _ _ (by decide)]; decide
  have h2 : probability 32 128 = 25 := by
    rw [probability_eval _ _ (by decide)]; decide
  have htot : totalScoreOf c3pool = 128 := by decide
  have hc1 : mkCandidate 128 ⟨"aa", 48, []⟩ = ⟨"Aa", none, 38, [], []⟩ := by
    simp only [mkCandidate, h1]; decide
  have hc2 : mkCandidate 128 ⟨"bb", 48, []⟩ = ⟨"Bb", none, 38, [], []⟩ := by
    simp only [mkCandidate, h1]; decide
  have hc3 : mkCandidate 128 ⟨"cc", 32, []⟩ = ⟨"Cc", none, 25, [], []⟩ := by
    simp only [mkCandidate, h2]; decide
  have hm : (c3pool.take 5).map (mkCandidate (totalScoreOf c3pool))
      = [⟨"Aa", none, 38, [], []⟩, ⟨"Bb", none, 38, [], []⟩,
         ⟨"Cc", none, 25, [], []⟩] := by
    rw [htot, show c3pool.take 5 = c3pool from by decide]
    simp only [c3pool, List.map]
    rw [hc1, hc2, hc3]
  have hsort : rankedCandidates (c3pool.take 5) (totalScoreOf c3pool)
      = [⟨"Aa", none, 38, [], []⟩, ⟨"Bb", none, 38, [], []⟩,
         ⟨"Cc", none, 25, [], []⟩] := by
    rw [rankedCandidates, hm]
    simp [List.mergeSort, List.merge]
  simp only [buildCandidatesFromConsensus, hsort]
  decide

/-- C3 counterexample: at pool scores (48, 48, 32) the Builder returns an
ambiguous result whose three candidates' probabilities (38, 38, 25, each the
rounded share) sum to 101 > 100, refuting the claimed `<= 100` bound. -/
theorem claim_probability_normalization_cex :
    (buildCandidatesFromConsensus c3pool).1 = false ∧
    100 < (((buildCandidatesFromConsensus c3pool).2).map fun c => c.probability).sum := by
  rw [c3pool_eval]
  exact ⟨rfl, by norm_num⟩

/-- C3 (amended): every candidate's probability is the rounded value of
`max(0, score) / Σ max(0, score) × 100` and lies in [0, 100]; the sum of
the returned candidates' probabilities is at most 101 (not 100: rounding can
push the sum of up to three rounded shares one above 100). -/
theorem claim_probability_normalization :
    (∀ l, 0 < totalScoreOf l →
      ∀ c ∈ rankedCandidates (l.take 5) (totalScoreOf l),
        (∃ r ∈ l.take 5,
          c.probability =
            jsRound (((max 0 r.score : Int) : ℚ) /
              ((totalScoreOf l : Int) : ℚ) * 100)) ∧
        0 ≤ c.probability ∧ c.probability ≤ 100) ∧
    (∀ l, (((buildCandidatesFromConsensus l).2).map fun c => c.probability).sum ≤ 101) :=
  ⟨fun l ht => build_probability_bounds l ht, build_sum_le⟩

/-- Witness for C3 at the 48/48/32 pool. -/
theorem claim_probability_normalization_witness :
    (0 < totalScoreOf c3pool ∧
      ∀ c ∈ rankedCandidates (c3pool.take 5) (totalScoreOf c3pool),
        (∃ r ∈ c3pool.take 5,
          c.probability =
            jsRound (((max 0 r.score : Int) : ℚ) /
              ((totalScoreOf c3pool : Int) : ℚ) * 100)) ∧
        0 ≤ c.probability ∧ c.probability ≤ 100) ∧
    (((buildCandidatesFromConsensus c3pool).2).map fun c => c.probability).sum ≤ 101 :=
  ⟨⟨by decide, claim_probability_normalization.1 c3pool (by decide)⟩,
    claim_probability_normalization.2 c3pool⟩

/-! ## Claim C4: idempotence of region-name normalization -/

theorem toLower_toLower (c : Char) : c.toLower.toLower = c.toLower := by
  by_cases h : 65 ≤ c.toNat ∧ c.toNat ≤ 90
  · have h1 := h.1
    have h2 := h.2
    simp only [Char.toLower, if_pos h]
    interval_cases hn : c.toNat <;> decide
  · simp only [Char.toLower, if_neg h]

theorem parenMatchAt_suffix {s rest : List Char}
    (h : parenMatchAt s = some rest) : rest <:+ s := by
  unfold parenMatchAt at h
  split at h
  next r2 heq =>
    split at h
    next tail heq2 =>
      injection h with hh
      have h1 : tail <:+ r2 := by
        have h2 : (')' :: tail) <:+ r2 := heq2 ▸ List.drop_suffix _ _
        exact (List.suffix_cons ')' tail).trans h2
      have h3 : r2 <:+ s := by
        have h4 : ('(' :: r2) <:+ s := heq ▸ List.drop_suffix _ _
        exact (List.suffix_cons '(' r2).trans h4
      exact hh ▸ (h1.trans h3)
    next => simp at h
  next => simp at h

theorem dirMatchAt_suffix {s rest : List Char}
    (h : dirMatchAt s = some rest) : rest <:+ s := by
  obtain ⟨w, _, hw⟩ := List.exists_of_findSome?_eq_some h
  by_cases hpre : w.isPrefixOf s
  · rw [if_pos hpre] at hw
    simp only [Option.some.injEq] at hw
    subst hw
    exact List.drop_suffix _ _
  · rw [if_neg hpre] at hw
    exact absurd hw (by simp)

theorem removeParensGo_sublist : ∀ (f : Nat) (l : List Char),
    (removeParensGo f l).Sublist l := by
  intro f
  induction f with
  | zero => intro l; exact List.Sublist.refl l
  | succ f ih =>
    intro l
    rcases l with _ | ⟨c, cs⟩
    · exact List.Sublist.refl _
    · rcases h : parenMatchAt (c :: cs) with _ | rest
      · simp only [removeParensGo, h]
        exact (ih cs).cons₂ c
      · simp only [removeParensGo, h]
        exact (ih rest).trans (parenMatchAt_suffix h).sublist

theorem removeDirGo_sublist : ∀ (f : Nat) (l : List Char),
    (removeDirGo f l).Sublist l := by
  intro f
  induction f with
  | zero => intro l; exact List.Sublist.refl l
  | succ f ih =>
    intro l
    rcases l with _ | ⟨c, cs⟩
    · exact List.Sublist.refl _
    · rcases h : dirMatchAt (c :: cs) with _ | rest
      · simp only [removeDirGo, h]
        exact (ih cs).cons₂ c
      · simp only [removeDirGo, h]
        exact (ih rest).trans (dirMatchAt_suffix h).sublist

theorem removeCommaTail_sublist : ∀ l : List Char, (removeCommaTail l).Sublist l := by
  intro l
  induction l with
  | nil => exact List.Sublist.refl _
  | cons c cs ih =>
    by_cases h : (c = ',' && cs.all fun d => !isLineTerm d) = true
    · simp only [removeCommaTail, if_pos h]
      exact List.nil_sublist _
    · simp only [removeCommaTail, if_neg h]
      exact ih.cons₂ c

theorem trimBoth_sublist (l : List Char) : (trimBoth l).Sublist l := by
  unfold trimBoth
  have h1 : ((l.dropWhile isJsWS).reverse.dropWhile isJsWS).Sublist
      (l.dropWhile isJsWS).reverse := List.dropWhile_sublist _
  have h2 := h1.reverse
  rw [List.reverse_reverse] at h2
  exact h2.trans (List.dropWhile_sublist _)

theorem dropWhile_head_false {p : Char → Bool} :
    ∀ {l : List Char} {a : Char}, (l.dropWhile p).head? = some a → p a = false := by
  intro l
  induction l with
  | nil => intro a h; exact absurd h (by simp)
  | cons c cs ih =>
    intro a h
    rw [List.dropWhile_cons] at h
    by_cases hc : p c = true
    · rw [if_pos hc] at h; exact ih h
    · rw [if_neg hc] at h
      simp only [List.head?_cons, Option.some.injEq] at h
      subst h
      exact Bool.eq_false_iff.mpr hc

theorem dropWhile_eq_self_of_head {p : Char → Bool} {l : List Char}
    (h : ∀ a, l.head? = some a → p a = false) : l.dropWhile p = l := by
  rcases l with _ | ⟨c, cs⟩
  · rfl
  · rw [List.dropWhile_cons, if_neg]
    rw [h c rfl]
    simp

theorem suffix_getLast? {B C : List Char} (h : B <:+ C) {a : Char}
    (ha : B.getLast? = some a) : C.getLast? = some a := by
  obtain ⟨pre, rfl⟩ := h
  rw [List.getLast?_append, ha]
  rfl

theorem trimBoth_idem (l : List Char) : trimBoth (trimBoth l) = trimBoth l := by
  have hstep : (trimBoth l).dropWhile isJsWS = trimBoth l := by
    apply dropWhile_eq_self_of_head
    intro a ha
    unfold trimBoth at ha
    rw [List.head?_reverse] at ha
    have h1 : ((l.dropWhile isJsWS).reverse.dropWhile isJsWS) <:+
        (l.dropWhile isJsWS).reverse := List.dropWhile_suffix _
    have h2 := suffix_getLast? h1 ha
    rw [List.getLast?_reverse] at h2
    exact dropWhile_head_false (p := isJsWS) h2
  show ((((trimBoth l).dropWhile isJsWS).reverse).dropWhile isJsWS).reverse = trimBoth l
  rw [hstep]
  unfold trimBoth
  rw [List.reverse_reverse, List.dropWhile_idempotent]

theorem map_toLower_fixed {t m : List Char} (hsub : t.Sublist (m.map Char.toLower)) :
    t.map Char.toLower = t := by
  induction t with
  | nil => rfl
  | cons c cs ih =>
    have hc : c ∈ m.map Char.toLower := hsub.mem (List.mem_cons_self _ _)
    obtain ⟨d, _, rfl⟩ := List.mem_map.mp hc
    have hcs : cs.Sublist (m.map Char.toLower) :=
      (List.sublist_cons_self _ _).trans hsub |>.trans (List.Sublist.refl _)
    rw [List.map_cons, toLower_toLower, ih ((List.sublist_cons_self _ _).trans hsub)]

/-- C4 (amended): normalization is NOT idempotent in general (one removal
pass can create a new directional-prefix or comma occurrence that only a
second pass removes); it IS idempotent at every input whose normalized form
is a fixed point of the three removal passes — lower-casing and trimming
need no such hypothesis, because the normalized form is always lower-case
and trimmed. -/
theorem claim_normalize_idempotent (x : String)
    (hp : removeParens (normalizeRegion x).toList = (normalizeRegion x).toList)
    (hc : removeCommaTail (normalizeRegion x).toList = (normalizeRegion x).toList)
    (hd : removeDir (normalizeRegion x).toList = (normalizeRegion x).toList) :
    normalizeRegion (normalizeRegion x) = normalizeRegion x := by
  by_cases hx : x = ""
  · subst hx
    decide
  · by_cases hte : (trimBoth (removeDir (removeCommaTail (removeParens
        (x.toList.map Char.toLower))))).isEmpty
    · have hy : normalizeRegion x = "unknown" := by
        rw [normalizeRegion, if_neg hx, if_pos hte]
      rw [hy]
      decide
    · have hy : normalizeRegion x = String.mk (trimBoth (removeDir (removeCommaTail
          (removeParens (x.toList.map Char.toLower))))) := by
        rw [normalizeRegion, if_neg hx, if_neg hte]
      set t : List Char := trimBoth (removeDir (removeCommaTail (removeParens
        (x.toList.map Char.toLower)))) with htdef
      have htl : (String.mk t).toList = t := rfl
      have htne : t ≠ [] := by
        intro h
        rw [h] at hte
        exact hte rfl
      have hmkne : String.mk t ≠ "" := by
        intro h
        exact htne (congrArg String.data h)
      -- t is a sublist of the lower-cased input, so lower-casing fixes it
      have hsub : t.Sublist (x.toList.map Char.toLower) := by
        rw [htdef]
        exact ((trimBoth_sublist _).trans (removeDirGo_sublist _ _)).trans
          ((removeCommaTail_sublist _).trans (removeParensGo_sublist _ _))
      have hlower : t.map Char.toLower = t := map_toLower_fixed hsub
      rw [hy] at hp hc hd ⊢
      rw [htl] at hp hc hd
      rw [normalizeRegion, if_neg hmkne, htl, hlower, hp, hc, hd]
      have htrim : trimBoth t = t := by
        rw [htdef]
        exact trimBoth_idem _
      rw [htrim, if_neg (by simpa [List.isEmpty_iff] using htne)]

/-- C4 counterexample: normalization is not idempotent: removing the
directional word of "cennorthern tral italy" splices "cen" and "tral italy"
into "central italy", which a second pass reduces to "italy". -/
theorem claim_normalize_idempotent_cex :
    normalizeRegion "cennorthern tral italy" = "central italy" ∧
    normalizeRegion (normalizeRegion "cennorthern tral italy") = "italy" ∧
    normalizeRegion (normalizeRegion "cennorthern tral italy") ≠
      normalizeRegion "cennorthern tral italy" := by
  refine ⟨by decide, by decide, by decide⟩

/-- Witness for C4 at an input with a parenthetical, a comma and a
directional prefix. -/
theorem claim_normalize_idempotent_witness :
    (removeParens (normalizeRegion "Northern Italy (Tuscany), Europe").toList =
        (normalizeRegion "Northern Italy (Tuscany), Europe").toList ∧
      removeCommaTail (normalizeRegion "Northern Italy (Tuscany), Europe").toList =
        (normalizeRegion "Northern Italy (Tuscany), Europe").toList ∧
      removeDir (normalizeRegion "Northern Italy (Tuscany), Europe").toList =
        (normalizeRegion "Northern Italy (Tuscany), Europe").toList) ∧
    normalizeRegion (normalizeRegion "Northern Italy (Tuscany), Europe") =
      normalizeRegion "Northern Italy (Tuscany), Europe" :=
  ⟨⟨by decide, by decide, by decide⟩,
    claim_normalize_idempotent "Northern Italy (Tuscany), Europe"
      (by decide) (by decide) (by decide)⟩

/-! ## Claim C5: the default local confidence -/

/-- A payload with `confidence.region` present and `confidence.local` absent. -/
def c5payload : RawPayload :=
  { locationName := none, coordinates := none, confidenceScore := some 90
    confidence := some { region := some 90, localLevel := none }
    reasoning := none, evidence := none, alternativeLocations := none
    uncertainties := none, visualCues := none, searchQueriesUsed := none }

/-- C5 counterexample: with `confidence.region = 90` present and
`confidence.local` absent, the Decoder keeps the confidence object verbatim —
local stays absent instead of becoming 63. The 70% default only applies when
the whole `confidence` object is missing. -/
theorem claim_local_confidence_cex :
    (normalizeResult c5payload).confidence =
      { region := some 90, localLevel := none } ∧
    (normalizeResult c5payload).confidence.localLevel ≠ some 63 := by
  exact ⟨rfl, by decide⟩

/-- C5 (amended): when the `confidence` object is absent, the Decoder sets
region to `confidenceScore` (default 50) and local to 70% of that same score,
rounded; when `confidence` is present it is passed through verbatim, so a
present region with an absent local is NOT back-filled. -/
theorem claim_local_confidence_default :
    (∀ data : RawPayload, data.confidence = none →
      (normalizeResult data).confidence =
        { region := some (data.confidenceScore.getD 50)
          localLevel :=
            some (jsRound ((data.confidenceScore.getD 50 : Int) * (7/10 : ℚ))) }) ∧
    (∀ (data : RawPayload) (c : ConfSplit), data.confidence = some c →
      (normalizeResult data).confidence = c) := by
  constructor
  · intro data h
    simp [normalizeResult, h]
  · intro data c h
    simp [normalizeResult, h]

/-- A payload with `confidenceScore = 90` and no confidence object. -/
def c5wpayload : RawPayload :=
  { locationName := none, coordinates := none, confidenceScore := some 90
    confidence := none
    reasoning := none, evidence := none, alternativeLocations := none
    uncertainties := none, visualCues := none, searchQueriesUsed := none }

/-- Witness for C5: score 90 with no confidence object gives local = 63. -/
theorem claim_local_confidence_default_witness :
    c5wpayload.confidence = none ∧
    (normalizeResult c5wpayload).confidence =
      { region := some 90, localLevel := some 63 } := by
  refine ⟨rfl, ?_⟩
  rw [claim_local_confidence_default.1 c5wpayload rfl]
  have h : jsRound ((90 : ℚ) * (7/10 : ℚ)) = 63 := by
    rw [show (90 : ℚ) * (7/10 : ℚ) = ((63 : ℤ) : ℚ) by norm_num, jsRound_intCast]
  simp [c5wpayload]
  exact h

/-! ## Claim C6: JSON extraction in `parseResponse` -/

/-- C6 (amended): for every NON-EMPTY raw text, the decoder takes the
substring from the first brace to the last brace and hands it to the JSON
parser; a missing brace or a parse failure raises the malformed-output
error. Empty or absent text instead raises the no-response error (the one
the spec calls `EmptyResponse`), not `MalformedOutput`. -/
theorem claim_parse_extraction :
    (∀ (J : Type) (parse : String → Option J) (t : String), t ≠ "" →
      ∀ i j, firstIdxOf '{' t = some i → lastIdxOf '}' t = some j →
        (∀ v, parse (jsSubstring t i (j + 1)) = some v →
          parseResponse J parse (some t) = .ok v) ∧
        (parse (jsSubstring t i (j + 1)) = none →
          parseResponse J parse (some t) = .error malformedMsg)) ∧
    (∀ (J : Type) (parse : String → Option J) (t : String), t ≠ "" →
      (firstIdxOf '{' t = none ∨ lastIdxOf '}' t = none) →
      parseResponse J parse (some t) = .error malformedMsg) ∧
    (∀ (J : Type) (parse : String → Option J),
      parseResponse J parse none = .error noResponseMsg ∧
      parseResponse J parse (some "") = .error noResponseMsg) ∧
    extractJson "noise \x7b\"a\":1\x7d trailing" = some "\x7b\"a\":1\x7d" := by
  refine ⟨?_, ?_, ?_, by decide⟩
  · intro J parse t ht i j hi hj
    constructor
    · intro v hv
      simp [parseResponse, ht, extractJson, hi, hj, hv]
    · intro hv
      simp [parseResponse, ht, extractJson, hi, hj, hv]
  · intro J parse t ht hmiss
    rcases hmiss with hm | hm <;>
      simp [parseResponse, ht, extractJson, hm]
  · intro J parse
    exact ⟨rfl, rfl⟩

/-- C6 counterexample: at the empty raw text (a text whose braces are
missing) the decoder raises the no-response error, not the malformed-output
error the claim requires. -/
theorem claim_parse_extraction_cex :
    parseResponse Unit (fun _ => none) (some "") = .error noResponseMsg ∧
    parseResponse Unit (fun _ => none) (some "") ≠ .error malformedMsg := by
  refine ⟨rfl, fun h => ?_⟩
  rw [show parseResponse Unit (fun _ => none) (some "") = .error noResponseMsg
    from rfl] at h
  exact absurd (Except.error.inj h) (by decide)

/-- Witness for C6 at the spec's example text. -/
theorem claim_parse_extraction_witness :
    ("noise \x7b\"a\":1\x7d trailing" ≠ "" ∧
      firstIdxOf '{' "noise \x7b\"a\":1\x7d trailing" = some 6 ∧
      lastIdxOf '}' "noise \x7b\"a\":1\x7d trailing" = some 12 ∧
      (fun s => if s = "\x7b\"a\":1\x7d" then some 1 else none)
        (jsSubstring "noise \x7b\"a\":1\x7d trailing" 6 (12 + 1)) = some 1) ∧
    parseResponse Nat (fun s => if s = "\x7b\"a\":1\x7d" then some 1 else none)
      (some "noise \x7b\"a\":1\x7d trailing") = .ok 1 :=
  ⟨⟨by decide, by decide, by decide, by decide⟩,
    (claim_parse_extraction.1 Nat
        (fun s => if s = "\x7b\"a\":1\x7d" then some 1 else none)
        "noise \x7b\"a\":1\x7d trailing" (by decide) 6 12
        (by decide) (by decide)).1 1 (by decide)⟩

/-! ## Claim C7: the retry/fallback chain -/

theorem runTextOnly_state (R : Type) (oracle : Nat → ServiceResult)
    (dT : String → Except String R) (st : CallState) :
    ∃ res, runTextOnlySearch R oracle dT st
      = (res, ⟨st.count + 1, st.log ++ [CallMode.textOnly]⟩) := by
  unfold runTextOnlySearch svcCall
  rcases oracle st.count with m | t
  · exact ⟨.error m, rfl⟩
  · dsimp only
    by_cases h : t = ""
    · rw [if_pos h]
      exact ⟨.error noResponseMsg, rfl⟩
    · rw [if_neg h]
      exact ⟨dT t, rfl⟩

theorem attempt_state (R : Type) (oracle : Nat → ServiceResult)
    (dM dT : String → Except String R) (mode : CallMode) (st : CallState) :
    (attemptWithTools R oracle dM dT mode st).2.log = st.log ++ [mode] ∨
    (attemptWithTools R oracle dM dT mode st).2.log
      = st.log ++ [mode, CallMode.textOnly] := by
  unfold attemptWithTools svcCall
  rcases h : oracle st.count with m | t
  · left; rfl
  · dsimp only
    by_cases he : t = ""
    · rw [if_pos he]
      obtain ⟨res, hres⟩ := runTextOnly_state R oracle dT
        ⟨st.count + 1, st.log ++ [mode]⟩
      rw [hres]
      right
      simp
    · rw [if_neg he]
      left; rfl

theorem runFinalSearch_bounds (R : Type) (oracle : Nat → ServiceResult)
    (dM dT : String → Except String R) :
    (runFinalSearch R oracle dM dT ⟨0, []⟩).2.log.length ≤ 5 ∧
    (runFinalSearch R oracle dM dT ⟨0, []⟩).2.log.count CallMode.fullTools ≤ 1 ∧
    (runFinalSearch R oracle dM dT ⟨0, []⟩).2.log.count CallMode.searchOnly ≤ 1 ∧
    (runFinalSearch R oracle dM dT ⟨0, []⟩).2.log.count CallMode.textOnly ≤ 3 := by
  unfold runFinalSearch
  rcases h1 : attemptWithTools R oracle dM dT .fullTools ⟨0, []⟩ with ⟨res1, st2⟩
  have hlog1 : st2.log = [CallMode.fullTools] ∨
      st2.log = [CallMode.fullTools, CallMode.textOnly] := by
    have := attempt_state R oracle dM dT .fullTools ⟨0, []⟩
    rw [h1] at this
    simpa using this
  rcases res1 with m | v
  · dsimp only
    split
    · rcases h2 : attemptWithTools R oracle dM dT .searchOnly st2 with ⟨res2, st4⟩
      have hlog2 : st4.log = st2.log ++ [CallMode.searchOnly] ∨
          st4.log = st2.log ++ [CallMode.searchOnly, CallMode.textOnly] := by
        have := attempt_state R oracle dM dT .searchOnly st2
        rw [h2] at this
        exact this
      rcases res2 with m2 | v2
      · dsimp only
        split
        · obtain ⟨res3, hres3⟩ := runTextOnly_state R oracle dT st4
          rw [hres3]
          rcases hlog1 with h | h <;> rcases hlog2 with h' | h' <;>
            simp [h, h'] at * <;>
            simp [h', List.count_cons, List.count_append]
        · rcases hlog1 with h | h <;> rcases hlog2 with h' | h' <;>
            simp [h', h, List.count_cons, List.count_append]
      · dsimp only
        rcases hlog1 with h | h <;> rcases hlog2 with h' | h' <;>
          simp [h', h, List.count_cons, List.count_append]
    · split
      · obtain ⟨res3, hres3⟩ := runTextOnly_state R oracle dT st2
        rw [hres3]
        rcases hlog1 with h | h <;>
          simp [h, List.count_cons, List.count_append]
      · rcases hlog1 with h | h <;>
          simp [h, List.count_cons, List.count_append]
  · dsimp only
    rcases hlog1 with h | h <;>
      simp [h, List.count_cons, List.count_append]

theorem runFinalSearch_propagate (R : Type) (oracle : Nat → ServiceResult)
    (dM dT : String → Except String R) (m : String)
    (h0 : oracle 0 = .threw m) (hc : isCoordErr m = false)
    (hs : isSafetyErr m = false) :
    runFinalSearch R oracle dM dT ⟨0, []⟩
      = (.error m, ⟨1, [CallMode.fullTools]⟩) := by
  unfold runFinalSearch attemptWithTools svcCall
  dsimp only
  rw [h0]
  dsimp only
  simp [hc, hs]

theorem analyze_fallback (experts : List ClueExpertOutput)
    (oracle : Nat → ServiceResult)
    (dM dT : String → Except String GeoAnalysisResult) (m : String)
    (hne : experts ≠ [])
    (herr : (runFinalSearch GeoAnalysisResult oracle dM dT ⟨0, []⟩).1 = .error m) :
    analyzeImageLocation experts oracle dM dT
      = .ok (fallbackResult (aggregateClues experts)) := by
  have hE : experts.isEmpty = false := by
    simpa [List.isEmpty_iff] using hne
  unfold analyzeImageLocation
  rw [hE]
  simp only [Bool.false_eq_true, if_false]
  rw [herr]

/-- C7 (amended): the chain makes at most 5 external calls (not 3): the
full-capability and tool-reduced calls happen at most once each, but the
text-only fallback can run up to 3 times, because the text-only call made
from the empty-response path sits inside the `try` and its failure re-enters
the catch classifier. An unrecognized failure still propagates immediately
after the single full-capability call, and any failure of the whole chain
makes the pipeline return the clue-only fallback result (confidence 20, no
coordinates, evidence from the aggregated clues, empty sources) instead of
raising. -/
theorem claim_retry_chain :
    (∀ (R : Type) (oracle : Nat → ServiceResult)
        (dM dT : String → Except String R),
      (runFinalSearch R oracle dM dT ⟨0, []⟩).2.log.length ≤ 5 ∧
      (runFinalSearch R oracle dM dT ⟨0, []⟩).2.log.count CallMode.fullTools ≤ 1 ∧
      (runFinalSearch R oracle dM dT ⟨0, []⟩).2.log.count CallMode.searchOnly ≤ 1 ∧
      (runFinalSearch R oracle dM dT ⟨0, []⟩).2.log.count CallMode.textOnly ≤ 3) ∧
    (∀ (R : Type) (oracle : Nat → ServiceResult)
        (dM dT : String → Except String R) (m : String),
      oracle 0 = .threw m → isCoordErr m = false → isSafetyErr m = false →
      runFinalSearch R oracle dM dT ⟨0, []⟩
        = (.error m, ⟨1, [CallMode.fullTools]⟩)) ∧
    (∀ (experts : List ClueExpertOutput) (oracle : Nat → ServiceResult)
        (dM dT : String → Except String GeoAnalysisResult) (m : String)
        (r : GeoAnalysisResult), experts ≠ [] →
      (runFinalSearch GeoAnalysisResult oracle dM dT ⟨0, []⟩).1 = .error m →
      analyzeImageLocation experts oracle dM dT = .ok r →
      r.confidenceScore = 20 ∧ r.coordinates = none ∧ r.sources = [] ∧
      r.evidence = (aggregateClues experts).searchableClues.map (fun c =>
        { clue := c.clue
          strength :=
            if c.type = "business_name" || c.type = "street_name" then "hard"
            else "medium"
          supports := "Unknown - search failed" })) := by
  refine ⟨runFinalSearch_bounds, runFinalSearch_propagate, ?_⟩
  intro experts oracle dM dT m r hne herr hok
  rw [analyze_fallback experts oracle dM dT m hne herr] at hok
  simp only [Except.ok.injEq] at hok
  subst hok
  exact ⟨rfl, rfl, rfl, rfl⟩

/-- The oracle refuting the 3-call bound: a coordinate rejection on the
first call, then empty responses. -/
def c7oracle : Nat → ServiceResult := fun n =>
  match n with
  | 0 => .threw "Coordinates are not a valid input"
  | _ => .returned ""

/-- C7 counterexample: with a coordinate rejection followed by empty
responses, the chain makes 4 external calls (full, tool-reduced, then the
text-only fallback twice), refuting both "at most 3 total calls" and "each
fallback trigger fires at most once". -/
theorem claim_retry_chain_cex :
    (runFinalSearch Unit c7oracle (fun _ => .error "d") (fun _ => .error "d")
        ⟨0, []⟩).2.log =
      [CallMode.fullTools, CallMode.searchOnly, CallMode.textOnly,
        CallMode.textOnly] ∧
    (runFinalSearch Unit c7oracle (fun _ => .error "d") (fun _ => .error "d")
        ⟨0, []⟩).2.log.length = 4 := by
  exact ⟨by decide, by decide⟩

/-- A fixed expert output for the C7 witness. -/
def c7expert : ClueExpertOutput :=
  { expertType := "text", searchableClues := [], languageClues := []
    transcribedText := [], infrastructureClues := [], architectureStyle := ""
    vegetationClues := [], climateIndicators := [] }

/-- Witness for C7: a run whose first call throws an unrecognized error
propagates after one call, and the pipeline then returns the clue-only
fallback. -/
theorem claim_retry_chain_witness :
    ((fun _ : Nat => ServiceResult.threw "boom") 0 = .threw "boom" ∧
      isCoordErr "boom" = false ∧ isSafetyErr "boom" = false ∧
      ([c7expert] : List ClueExpertOutput) ≠ []) ∧
    runFinalSearch Unit (fun _ => .threw "boom")
      (fun _ => .error "d") (fun _ => .error "d") ⟨0, []⟩
      = (.error "boom", ⟨1, [CallMode.fullTools]⟩) ∧
    ((fallbackResult (aggregateClues [c7expert])).confidenceScore = 20 ∧
      (fallbackResult (aggregateClues [c7expert])).coordinates = none ∧
      (fallbackResult (aggregateClues [c7expert])).sources = [] ∧
      (fallbackResult (aggregateClues [c7expert])).evidence =
        (aggregateClues [c7expert]).searchableClues.map (fun c =>
          { clue := c.clue
            strength :=
              if c.type = "business_name" || c.type = "street_name" then "hard"
              else "medium"
            supports := "Unknown - search failed" })) :=
  ⟨⟨rfl, by decide, by decide, by simp⟩,
    claim_retry_chain.2.1 Unit (fun _ => .threw "boom")
      (fun _ => .error "d") (fun _ => .error "d") "boom" rfl
      (by decide) (by decide),
    claim_retry_chain.2.2 [c7expert] (fun _ => .threw "boom")
      (fun _ => .error "d") (fun _ => .error "d") "boom"
      (fallbackResult (aggregateClues [c7expert])) (by simp) rfl
      (analyze_fallback [c7expert] (fun _ => .threw "boom")
        (fun _ => .error "d") (fun _ => .error "d") "boom" (by simp) rfl)⟩

/-! ## Claim C8: the Clue Expert Runner absorbs individual failures -/

/-- C8: a failing expert call is caught and dropped (with 1 of 3 throwing,
the two successes survive in panel order and the pipeline completes without
an escaping exception); the runner output lists the successful experts in
panel order; and the pipeline aborts with the all-experts-failed error
exactly when every expert failed. -/
theorem claim_expert_runner :
    (∀ (p1 p3 : RawExpertParsed) (m : String),
      (runAllClueExperts (.ok p1) (.error m) (.ok p3)).map (fun e => e.expertType)
        = ["text", "natural_environment"] ∧
      (runAllClueExperts (.ok p1) (.error m) (.ok p3)).length = 2) ∧
    (∀ (p1 p3 : RawExpertParsed) (m : String) (oracle : Nat → ServiceResult)
        (dM dT : String → Except String GeoAnalysisResult),
      ∃ r, analyzePipeline (.ok p1) (.error m) (.ok p3) oracle dM dT = .ok r) ∧
    (∀ o1 o2 o3, (runAllClueExperts o1 o2 o3).map (fun e => e.expertType) =
      (if o1.isOk then ["text"] else []) ++
      (if o2.isOk then ["built_environment"] else []) ++
      (if o3.isOk then ["natural_environment"] else [])) ∧
    (∀ o1 o2 o3, runAllClueExperts o1 o2 o3 = [] ↔
      (o1.isOk = false ∧ o2.isOk = false ∧ o3.isOk = false)) ∧
    (∀ o1 o2 o3 oracle dM dT e,
      analyzePipeline o1 o2 o3 oracle dM dT = .error e ↔
        (runAllClueExperts o1 o2 o3 = [] ∧ e = allExpertsFailedMsg)) := by
  refine ⟨?_, ?_, ?_, ?_, ?_⟩
  · intro p1 p3 m
    constructor <;> rfl
  · intro p1 p3 m oracle dM dT
    unfold analyzePipeline analyzeImageLocation
    cases hrun : (runFinalSearch GeoAnalysisResult oracle dM dT ⟨0, []⟩).1 <;>
      simp [runAllClueExperts, runClueExpert, hrun]
  · intro o1 o2 o3
    rcases o1 with m1 | p1 <;> rcases o2 with m2 | p2 <;> rcases o3 with m3 | p3 <;>
      simp [runAllClueExperts, runClueExpert, Except.isOk, Except.toBool]
  · intro o1 o2 o3
    rcases o1 with m1 | p1 <;> rcases o2 with m2 | p2 <;> rcases o3 with m3 | p3 <;>
      simp [runAllClueExperts, runClueExpert, Except.isOk, Except.toBool]
  · intro o1 o2 o3 oracle dM dT e
    unfold analyzePipeline analyzeImageLocation
    by_cases hE : (runAllClueExperts o1 o2 o3).isEmpty
    · have h0 : runAllClueExperts o1 o2 o3 = [] := List.isEmpty_iff.mp hE
      simp [hE, h0, eq_comm]
    · have h0 : runAllClueExperts o1 o2 o3 ≠ [] := by
        intro h; exact hE (by simp [h])
      cases hrun : (runFinalSearch GeoAnalysisResult oracle dM dT ⟨0, []⟩).1 <;>
        simp [hE, h0, hrun]

/-- A fully empty parsed expert payload, for the C8 witness. -/
def c8parsed : RawExpertParsed :=
  { searchableClues := none, languageClues := none, transcribedText := none
    infrastructureClues := none, architectureStyle := none
    vegetationClues := none, climateIndicators := none }

/-- Witness for C8 at a concrete panel run with the middle expert failing. -/
theorem claim_expert_runner_witness :
    ((runAllClueExperts (.ok c8parsed) (.error "boom") (.ok c8parsed)).map
        (fun e => e.expertType) = ["text", "natural_environment"] ∧
      (runAllClueExperts (.ok c8parsed) (.error "boom") (.ok c8parsed)).length = 2) ∧
    (∃ r, analyzePipeline (.ok c8parsed) (.error "boom") (.ok c8parsed)
      (fun _ => .threw "x") (fun _ => .error "d") (fun _ => .error "d") = .ok r) :=
  ⟨claim_expert_runner.1 c8parsed c8parsed "boom",
    claim_expert_runner.2.1 c8parsed c8parsed "boom"
      (fun _ => .threw "x") (fun _ => .error "d") (fun _ => .error "d")⟩

/-! ## Claim C9: deduplication in the Clue Aggregator -/

/-- The case-insensitive trimmed comparison key the claim asserts is used. -/
def ciKey (s : String) : String := lowerStr (jsTrim s)

theorem mem_dedupKeepFirst (x : String) :
    ∀ (l seen : List String),
      x ∈ dedupKeepFirst seen l ↔ (x ∈ l ∧ x ∉ seen) := by
  intro l
  induction l with
  | nil => intro seen; simp [dedupKeepFirst]
  | cons a as ih =>
    intro seen
    by_cases h : a ∈ seen
    · rw [show dedupKeepFirst seen (a :: as) = dedupKeepFirst seen as from by
        simp [dedupKeepFirst, h]]
      rw [ih seen]
      constructor
      · rintro ⟨hx, hs⟩
        exact ⟨List.mem_cons_of_mem _ hx, hs⟩
      · rintro ⟨hor, hs⟩
        rcases List.mem_cons.mp hor with rfl | hx
        · exact absurd h hs
        · exact ⟨hx, hs⟩
    · rw [show dedupKeepFirst seen (a :: as)
          = a :: dedupKeepFirst (a :: seen) as from by simp [dedupKeepFirst, h]]
      constructor
      · intro hx
        rcases List.mem_cons.mp hx with rfl | hx2
        · exact ⟨List.mem_cons_self _ _, h⟩
        · obtain ⟨h1, h2⟩ := (ih (a :: seen)).mp hx2
          exact ⟨List.mem_cons_of_mem _ h1,
            fun hs => h2 (List.mem_cons_of_mem _ hs)⟩
      · rintro ⟨hor, hs⟩
        rcases List.mem_cons.mp hor with rfl | hx
        · exact List.mem_cons_self _ _
        · by_cases hxa : x = a
          · subst hxa; exact List.mem_cons_self _ _
          · exact List.mem_cons_of_mem _ ((ih (a :: seen)).mpr
              ⟨hx, by simp [hxa, hs]⟩)

theorem dedupKeepFirst_nodup :
    ∀ (l seen : List String), (dedupKeepFirst seen l).Nodup := by
  intro l
  induction l with
  | nil => intro seen; simp [dedupKeepFirst]
  | cons a as ih =>
    intro seen
    by_cases h : a ∈ seen
    · rw [show dedupKeepFirst seen (a :: as) = dedupKeepFirst seen as from by
        simp [dedupKeepFirst, h]]
      exact ih seen
    · rw [show dedupKeepFirst seen (a :: as)
          = a :: dedupKeepFirst (a :: seen) as from by simp [dedupKeepFirst, h]]
      refine List.nodup_cons.mpr ⟨?_, ih (a :: seen)⟩
      intro hmem
      exact ((mem_dedupKeepFirst a as (a :: seen)).mp hmem).2
        (List.mem_cons_self _ _)

theorem dedupKeepFirst_sublist :
    ∀ (l seen : List String), (dedupKeepFirst seen l).Sublist l := by
  intro l
  induction l with
  | nil => intro seen; simp [dedupKeepFirst]
  | cons a as ih =>
    intro seen
    by_cases h : a ∈ seen
    · rw [show dedupKeepFirst seen (a :: as) = dedupKeepFirst seen as from by
        simp [dedupKeepFirst, h]]
      exact (ih seen).trans (List.sublist_cons_self _ _)
    · rw [show dedupKeepFirst seen (a :: as)
          = a :: dedupKeepFirst (a :: seen) as from by simp [dedupKeepFirst, h]]
      exact (ih (a :: seen)).cons₂ a

theorem setDedup_nodup (l : List String) : (setDedup l).Nodup :=
  dedupKeepFirst_nodup l []

theorem setDedup_sublist (l : List String) : (setDedup l).Sublist l :=
  dedupKeepFirst_sublist l []

theorem mem_setDedup (x : String) (l : List String) :
    x ∈ setDedup l ↔ x ∈ l := by
  rw [setDedup, mem_dedupKeepFirst]
  simp

/-- C9 (amended): the merged `searchableClues` list is NOT deduplicated at
all; the free-text buckets and the suggested-search-query list ARE
deduplicated, but by exact string equality (JavaScript `Set`), not by
case-insensitive trimmed comparison; queries are exactly the non-null,
non-empty expert-supplied `searchQuery` values, deduplicated keeping the
first occurrence (a sublist of the raw order-preserving merge). -/
theorem claim_aggregator_dedup :
    (∀ experts, (aggregateClues experts).searchableClues
        = experts.flatMap fun e => e.searchableClues) ∧
    (∀ experts, (aggregateClues experts).suggestedSearchQueries.Nodup ∧
      (aggregateClues experts).allText.Nodup ∧
      (aggregateClues experts).allInfrastructure.Nodup ∧
      (aggregateClues experts).allNature.Nodup) ∧
    (∀ experts q, q ∈ (aggregateClues experts).suggestedSearchQueries ↔
      (q ≠ "" ∧ ∃ e ∈ experts, ∃ c ∈ e.searchableClues, c.searchQuery = some q)) ∧
    (∀ experts, (aggregateClues experts).suggestedSearchQueries.Sublist
      ((experts.flatMap fun e => e.searchableClues.filterMap fun c =>
        match c.searchQuery with
        | some q => if q = "" then none else some q
        | none => none).filter fun q => decide (q ≠ ""))) := by
  refine ⟨fun experts => rfl, ?_, ?_, ?_⟩
  · intro experts
    exact ⟨setDedup_nodup _, setDedup_nodup _, setDedup_nodup _, setDedup_nodup _⟩
  · intro experts q
    show q ∈ setDedup _ ↔ _
    rw [mem_setDedup]
    constructor
    · intro h1
      have h2 := List.mem_filter.mp h1
      obtain ⟨e, he, hqe⟩ := List.mem_flatMap.mp h2.1
      obtain ⟨c, hc, hg⟩ := List.mem_filterMap.mp hqe
      refine ⟨by simpa using h2.2, e, he, c, hc, ?_⟩
      rcases hcq : c.searchQuery with _ | q2
      · rw [hcq] at hg
        simp at hg
      · rw [hcq] at hg
        by_cases hq2 : q2 = ""
        · rw [hq2] at hg
          simp at hg
        · simp [hq2] at hg
          rw [hg]
    · rintro ⟨hqne, e, he, c, hc, hcq⟩
      apply List.mem_filter.mpr
      refine ⟨List.mem_flatMap.mpr ⟨e, he, ?_⟩, by simpa using hqne⟩
      apply List.mem_filterMap.mpr
      refine ⟨c, hc, ?_⟩
      rw [hcq]
      simp [hqne]
  · intro experts
    exact setDedup_sublist _

/-- An expert output with a duplicated searchable clue and two
case-variant transcriptions, for the C9 counterexample. -/
def c9expert : ClueExpertOutput :=
  { expertType := "text"
    searchableClues := [⟨"Sign", "t", none⟩, ⟨"Sign", "t", none⟩]
    languageClues := [], transcribedText := ["Paris", "paris"]
    infrastructureClues := [], architectureStyle := ""
    vegetationClues := [], climateIndicators := [] }

/-- C9 counterexample: the merged `searchableClues` keeps an exact duplicate,
and the `allText` bucket keeps "Paris" and "paris", which compare equal
under the claimed case-insensitive trimmed comparison — so neither list is
deduplicated the way the claim states. -/
theorem claim_aggregator_dedup_cex :
    (aggregateClues [c9expert]).searchableClues.length = 2 ∧
    ¬ (aggregateClues [c9expert]).searchableClues.Pairwise (fun a b => a ≠ b) ∧
    (aggregateClues [c9expert]).allText = ["Paris", "paris"] ∧
    ¬ (aggregateClues [c9expert]).allText.Pairwise
        (fun a b => ciKey a ≠ ciKey b) := by
  refine ⟨by decide, by decide, by decide, by decide⟩

/-- Witness for C9 at a concrete expert list. -/
theorem claim_aggregator_dedup_witness :
    (aggregateClues [c9expert]).suggestedSearchQueries.Nodup ∧
    (aggregateClues [c9expert]).allText.Nodup ∧
    (aggregateClues [c9expert]).allInfrastructure.Nodup ∧
    (aggregateClues [c9expert]).allNature.Nodup :=
  claim_aggregator_dedup.2.1 [c9expert]

/-! ## Claim C10: the public Analyze operation is always definitive -/

/-- C10: every non-error result of `analyzeImageLocation` — the verification
path and the search-failure fallback alike — has `isDefinitive = true` and
`candidates` absent, overriding the decoder-derived value; the operation
never produces a multi-candidate result. -/
theorem claim_analyze_definitive :
    ∀ (experts : List ClueExpertOutput) (oracle : Nat → ServiceResult)
      (dM dT : String → Except String GeoAnalysisResult) (r : GeoAnalysisResult),
      analyzeImageLocation experts oracle dM dT = .ok r →
      r.isDefinitive = true ∧ r.candidates = none :=
  analyze_ok_spec

/-- A fixed expert output for the C10 witness. -/
def c10expert : ClueExpertOutput :=
  { expertType := "text", searchableClues := [], languageClues := []
    transcribedText := [], infrastructureClues := [], architectureStyle := ""
    vegetationClues := [], climateIndicators := [] }

/-- Witness for C10 at a concrete fallback run. -/
theorem claim_analyze_definitive_witness :
    analyzeImageLocation [c10expert] (fun _ => .threw "x")
        (fun _ => .error "d") (fun _ => .error "d")
      = .ok (fallbackResult (aggregateClues [c10expert])) ∧
    (fallbackResult (aggregateClues [c10expert])).isDefinitive = true ∧
    (fallbackResult (aggregateClues [c10expert])).candidates = none :=
  have h : analyzeImageLocation [c10expert] (fun _ => .threw "x")
      (fun _ => .error "d") (fun _ => .error "d")
      = .ok (fallbackResult (aggregateClues [c10expert])) :=
    analyze_fallback [c10expert] (fun _ => .threw "x")
      (fun _ => .error "d") (fun _ => .error "d") "x" (by simp) rfl
  ⟨h, claim_analyze_definitive [c10expert] (fun _ => .threw "x")
      (fun _ => .error "d") (fun _ => .error "d")
      (fallbackResult (aggregateClues [c10expert])) h⟩

end Geo
